import Mathlib

/-!
Verification development for the khirolib upload library
(`khirolib/core_py3.py` and `upload_program.py`).

The Python code is shallowly embedded: Python `str` is modelled as Lean
`String`, and each string primitive used by the source (`split`,
`startswith`, `strip`, `join`, `in`, `isdigit`, `float(...)` parsing,
`lower`) is modelled by an executable definition over the underlying
character list.  The stateful command channel of the orchestrator is
modelled by an explicit command trace together with a failure oracle
(`Channel.failAt`) that decides, for every issued command, whether the
channel raises an exception (carrying its message) or succeeds.
-/

set_option maxRecDepth 4000

/-! ## Models of the Python string primitives used by the source -/

/-- Model of Python whitespace for `str.strip` / `str.split()` (ASCII part:
space, tab, newline, carriage return, vertical tab, form feed). -/
def pyIsSpace (c : Char) : Bool :=
  c = ' ' || c = '\t' || c = '\n' || c = '\r' ||
    c = Char.ofNat 11 || c = Char.ofNat 12

/-- `str.strip()` on the character list: drop whitespace from both ends. -/
def pyStripData (cs : List Char) : List Char :=
  ((cs.dropWhile pyIsSpace).reverse.dropWhile pyIsSpace).reverse

/-- Model of Python `str.strip()`. -/
def pyStrip (s : String) : String := String.mk (pyStripData s.data)

/-- Boolean prefix test on character lists (model of `str.startswith`). -/
def isPrefixL : List Char → List Char → Bool
  | [], _ => true
  | _ :: _, [] => false
  | a :: as, b :: bs => a == b && isPrefixL as bs

/-- Model of Python `s.startswith(pre)`. -/
def pyStartsWith (s pre : String) : Bool := isPrefixL pre.data s.data

/-- Split a character list at every character satisfying `p`, keeping empty
parts (the splitting behaviour of Python `str.split(sep)` for a
single-character separator). -/
def pySplitPredData (p : Char → Bool) : List Char → List (List Char)
  | [] => [[]]
  | a :: rest =>
    let r := pySplitPredData p rest
    if p a then [] :: r
    else
      match r with
      | [] => [[a]]
      | h :: t => (a :: h) :: t

/-- Model of Python `s.split("\n")`. -/
def pySplitNl (s : String) : List String :=
  (pySplitPredData (fun a => a == '\n') s.data).map String.mk

/-- Model of Python `s.split(",")`. -/
def pySplitComma (s : String) : List String :=
  (pySplitPredData (fun a => a == ',') s.data).map String.mk

/-- Model of Python no-argument `s.split()`: split on whitespace runs,
dropping empty parts. -/
def pySplitWs (s : String) : List String :=
  ((pySplitPredData pyIsSpace s.data).filter (fun l => l ≠ [])).map String.mk

/-- Join character lists with a separator character (model of
`sep.join(...)` for a one-character separator). -/
def pyJoinData (c : Char) : List (List Char) → List Char
  | [] => []
  | [l] => l
  | l :: ls => l ++ c :: pyJoinData c ls

/-- Model of Python `"\n".join(lines)`. -/
def pyJoinNl (lines : List String) : String :=
  String.mk (pyJoinData '\n' (lines.map String.data))

/-- Split at the first `'='` (model of `s.split("=", 1)` when `'='` occurs
in `s`): the pair of the text before the first `'='` and the text after. -/
def splitFirstEq : List Char → List Char × List Char
  | [] => ([], [])
  | '=' :: rest => ([], rest)
  | a :: rest =>
    let p := splitFirstEq rest
    (a :: p.1, p.2)

/-- Model of Python `c in s` for a single character. -/
def pyContains (s : String) (c : Char) : Bool := s.data.contains c

/-- Model of Python `str.isdigit()` (ASCII): non-empty and all decimal
digits. -/
def pyIsDigit (s : String) : Bool :=
  match s.data with
  | [] => false
  | _ => s.data.all Char.isDigit

/-- Model of Python `str.lower()` (ASCII). -/
def pyLower (s : String) : String := String.mk (s.data.map Char.toLower)

/-! ### Model of CPython `float(...)` acceptance

`float(value)` succeeds exactly on (optionally signed) decimal literals
with optional fractional part and exponent, with single underscores
allowed between digits, and on the case-insensitive special words
`inf`, `infinity` and `nan`. -/

/-- Consume a maximal run of `( '_'? digit )*` after an initial digit. -/
def digRunCont : List Char → List Char
  | '_' :: c :: rest => if c.isDigit then digRunCont rest else '_' :: c :: rest
  | c :: rest => if c.isDigit then digRunCont rest else c :: rest
  | [] => []

/-- Consume a digit run `digit ( '_'? digit )*`; `none` when the input does
not start with a digit, otherwise the unconsumed remainder. -/
def digRun (cs : List Char) : Option (List Char) :=
  match cs with
  | c :: rest => if c.isDigit then some (digRunCont rest) else none
  | [] => none

/-- Accept an optional exponent part `('e'|'E') ('+'|'-')? digits` ending
the literal. -/
def parseExp (cs : List Char) : Bool :=
  match cs with
  | [] => true
  | e :: rest =>
    if e = 'e' || e = 'E' then
      let rest2 :=
        match rest with
        | s :: r => if s = '+' || s = '-' then r else s :: r
        | [] => []
      match digRun rest2 with
      | some [] => true
      | _ => false
    else false

/-- Accept the body of a float literal (after the optional sign). -/
def parseFloatBody (cs : List Char) : Bool :=
  match cs with
  | '.' :: rest =>
    match digRun rest with
    | some rest2 => parseExp rest2
    | none => false
  | _ =>
    match digRun cs with
    | some rest =>
      match rest with
      | '.' :: rest2 =>
        (match digRun rest2 with
        | some rest3 => parseExp rest3
        | none => parseExp rest2)
      | _ => parseExp rest
    | none => false

/-- Model of "`float(s)` does not raise `ValueError`". -/
def pyFloatOk (s : String) : Bool :=
  let cs := s.data
  let cs2 :=
    match cs with
    | c :: rest => if c = '+' || c = '-' then rest else c :: rest
    | [] => []
  let low := cs2.map Char.toLower
  if low = "inf".data ∨ low = "infinity".data ∨ low = "nan".data then true
  else parseFloatBody cs2

/-! ## Section Extractor: `KHIRoLibLite.find_section` -/

/-- One iteration of the section-type dispatch of `find_section`: does
`line` open the requested section?  An unrecognized section type raises
`ValueError` (modelled as `Except.error`), exactly as in the source. -/
def sectionOpen (pname sty line : String) : Except String Bool :=
  if sty = "program" then
    Except.ok (pyStartsWith line (".PROGRAM " ++ pname ++ "("))
  else if sty = "trans" then Except.ok (pyStartsWith line ".TRANS")
  else if sty = "joints" then Except.ok (pyStartsWith line ".JOINTS")
  else Except.error ("Invalid section type" ++ sty)

/-- The line scan of `find_section`: walk the lines keeping the most recent
opening-delimiter index (`section_start`); as soon as a line starts with
`.END` while `section_start` is set, stop with both indices. -/
def findSectionLoop (pname sty : String) :
    List String → Nat → Option Nat → Except String (Option (Nat × Nat))
  | [], _, _ => Except.ok none
  | line :: rest, i, sstart =>
    match sectionOpen pname sty line with
    | Except.error e => Except.error e
    | Except.ok b =>
      match (if b then some i else sstart) with
      | some s =>
        if pyStartsWith line ".END" then Except.ok (some (s, i))
        else findSectionLoop pname sty rest (i + 1) (some s)
      | none => findSectionLoop pname sty rest (i + 1) none

/-- Model of `KHIRoLibLite.find_section(content, program_name,
section_type)`: returns the text from the opening delimiter to the closing
`.END` line inclusive, joined by newline, or `""` when not found;
`Except.error` models the `ValueError` for an invalid section type. -/
def find_section (content pname sty : String) : Except String String :=
  let lines := pySplitNl content
  match findSectionLoop pname sty lines 0 none with
  | Except.error e => Except.error e
  | Except.ok none => Except.ok ""
  | Except.ok (some (s, e)) =>
      Except.ok (pyJoinNl ((lines.drop s).take (e + 1 - s)))

/-- The opening-delimiter predicate of the `program` section type. -/
def progOpen (pname line : String) : Bool :=
  pyStartsWith line (".PROGRAM " ++ pname ++ "(")

/-- The opening-delimiter predicate of the `trans` section type. -/
def transOpen (line : String) : Bool := pyStartsWith line ".TRANS"

/-- The opening-delimiter predicate of the `joints` section type. -/
def jointsOpen (line : String) : Bool := pyStartsWith line ".JOINTS"

/-- The scan of `find_section` for a fixed valid section type, as a pure
function of the opening predicate (used to prove facts uniformly over the
three section types). -/
def genLoop (p : String → Bool) :
    List String → Nat → Option Nat → Option (Nat × Nat)
  | [], _, _ => none
  | line :: rest, i, sstart =>
    match (if p line then some i else sstart) with
    | some s =>
      if pyStartsWith line ".END" then some (s, i)
      else genLoop p rest (i + 1) (some s)
    | none => genLoop p rest (i + 1) none

/-- `find_section` for a fixed valid section type expressed through
`genLoop`. -/
def findSectionG (p : String → Bool) (content : String) : String :=
  let lines := pySplitNl content
  match genLoop p lines 0 none with
  | none => ""
  | some (s, e) => pyJoinNl ((lines.drop s).take (e + 1 - s))

/-- The opening predicate of a valid section type, by name. -/
def openPred (pname sty line : String) : Bool :=
  if sty = "program" then progOpen pname line
  else if sty = "trans" then transOpen line
  else jointsOpen line

/-! ## Statement Validator: `KHIRoLibLite.is_pg_valid` -/

/-- The inner loop of `is_pg_valid` over the comma-separated values after
`=`: each value, stripped, must be non-empty and parse as a float. -/
def checkValues : List String → Bool
  | [] => true
  | v :: rest =>
    let v2 := pyStrip v
    if v2 = "" then false
    else if pyFloatOk v2 then checkValues rest
    else false

/-- The checks of `is_pg_valid` on one (stripped) `SETCONDW` line:
at least two whitespace tokens, `=` in the second token, decimal-digit
parameter name before the first `=`, and well-formed float values after. -/
def checkSetcondw (line : String) : Bool :=
  match pySplitWs line with
  | _ :: p1 :: _ =>
    if ¬ pyContains p1 '=' then false
    else
      let pv := splitFirstEq p1.data
      if ¬ pyIsDigit (String.mk pv.1) then false
      else checkValues (pySplitComma (String.mk pv.2))
  | _ => false

/-- The line loop of `is_pg_valid`: any failing `SETCONDW` line returns
`false` immediately; other lines are skipped. -/
def isPgValidGo : List String → Bool
  | [] => true
  | l :: rest =>
    let line := pyStrip l
    if line != "" && pyStartsWith line "SETCONDW" then
      if checkSetcondw line then isPgValidGo rest else false
    else isPgValidGo rest

/-- Model of `KHIRoLibLite.is_pg_valid(text)`. -/
def is_pg_valid (text : String) : Bool := isPgValidGo (pySplitNl text)

/-- The per-line condition of claim C5, stated in the spec's words: the
whitespace split yields at least two tokens with `=` in the second, the
text before the first `=` is entirely decimal digits, and every
comma-separated value after the `=` is, after trimming, non-empty and
parses as a float.  (Spec-form predicate, to be compared with the
source-form `checkSetcondw`.) -/
def specSetcondwLineOk (line : String) : Prop :=
  ∃ p0 p1 rest, pySplitWs line = p0 :: p1 :: rest ∧
    pyContains p1 '=' = true ∧
    pyIsDigit (String.mk (splitFirstEq p1.data).1) = true ∧
    ∀ v ∈ pySplitComma (String.mk (splitFirstEq p1.data).2),
      pyStrip v ≠ "" ∧ pyFloatOk (pyStrip v) = true

deriving instance DecidableEq for Except

/-! ## Data model of the Upload Orchestrator (`KHIRoLibLite`) -/

/-- Model of the `UploadResult` dataclass. -/
structure UploadResult where
  program_uploaded : Bool := false
  trans_points_uploaded : Bool := false
  trans_points_exist : Bool := false
  joints_points_uploaded : Bool := false
  joints_points_exist : Bool := false
  program_loaded : Bool := false
  error_message : Option String := none
deriving DecidableEq, Repr

/-- Model of `UploadResult.all_successful`. -/
def UploadResult.all_successful (r : UploadResult) : Bool :=
  r.program_uploaded &&
    ((r.trans_points_uploaded && r.trans_points_exist) ||
      !r.trans_points_exist) &&
    ((r.joints_points_uploaded && r.joints_points_exist) ||
      !r.joints_points_exist)

/-- One auxiliary-thread status entry, as returned by `get_pc_status`. -/
structure PCStatus where
  thread_num : Nat
  name : String
  is_exist : Bool
  is_running : Bool
deriving DecidableEq, Repr

/-- The continuous-path (RCP) program status, as returned by
`get_rcp_status`. -/
structure RcpStatus where
  name : String
  is_exist : Bool
  is_running : Bool
deriving DecidableEq, Repr

/-- The commands the orchestrator issues on the telnet channel. -/
inductive Cmd where
  | getPCStatus : Cmd
  | getRcpStatus : Cmd
  | pcAbort (mask : Nat) : Cmd
  | pcKill (mask : Nat) : Cmd
  | rcpHold : Cmd
  | killRcp : Cmd
  | uploadBytes (payload : String) : Cmd
  | rcpPrime (name : String) : Cmd
  | pgDelete (name : String) : Cmd
deriving DecidableEq, Repr

/-- The command channel: the status data its queries return, and a failure
oracle deciding whether the n-th issued command (0-based) raises an
exception with the given message. -/
structure Channel where
  pcStatuses : List PCStatus
  rcpStatus : RcpStatus
  failAt : Nat → Option String

/-- Issue one command: append it to the trace; the oracle decides whether
this command raises. -/
def step (ch : Channel) (tr : List Cmd) (c : Cmd) : List Cmd × Option String :=
  (tr ++ [c], ch.failAt tr.length)

/-- The state after a prefix of the upload sequence: the result record so
far, the commands issued so far, and whether the call has already
returned (either an early `return result` or a caught exception). -/
structure StageOut where
  result : UploadResult
  trace : List Cmd
  done : Bool
deriving DecidableEq, Repr

/-- Sequence two steps of the upload call: once the call has returned,
later steps do nothing. -/
def andThen (s : StageOut) (f : UploadResult → List Cmd → StageOut) : StageOut :=
  if s.done then s else f s.result s.trace

/-- Step 0 of `upload_program`: the two status queries
(`get_status_pc()` and `get_rcp_status(...)`), each of which can raise. -/
def stGetStatuses (ch : Channel) (r : UploadResult) (tr : List Cmd) : StageOut :=
  let s1 := step ch tr Cmd.getPCStatus
  match s1.2 with
  | some e => ⟨{ r with error_message := some e }, s1.1, true⟩
  | none =>
    let s2 := step ch s1.1 Cmd.getRcpStatus
    match s2.2 with
    | some e => ⟨{ r with error_message := some e }, s2.1, true⟩
    | none => ⟨r, s2.1, false⟩

/-- The auxiliary-thread conflict loop of `upload_program`: for the first
status entry that exists and whose name case-insensitively equals the
program name, abort it when running, then kill it, and stop scanning. -/
def pcConflict (ch : Channel) (pname : String) (r : UploadResult) :
    List PCStatus → List Cmd → StageOut
  | [], tr => ⟨r, tr, false⟩
  | e :: rest, tr =>
    if e.is_exist && (pyLower e.name == pyLower pname) then
      if e.is_running then
        let s1 := step ch tr (Cmd.pcAbort (1 <<< (e.thread_num - 1)))
        match s1.2 with
        | some msg => ⟨{ r with error_message := some msg }, s1.1, true⟩
        | none =>
          let s2 := step ch s1.1 (Cmd.pcKill (1 <<< (e.thread_num - 1)))
          match s2.2 with
          | some msg => ⟨{ r with error_message := some msg }, s2.1, true⟩
          | none => ⟨r, s2.1, false⟩
      else
        let s1 := step ch tr (Cmd.pcKill (1 <<< (e.thread_num - 1)))
        match s1.2 with
        | some msg => ⟨{ r with error_message := some msg }, s1.1, true⟩
        | none => ⟨r, s1.1, false⟩
    else pcConflict ch pname r rest tr

/-- The continuous-path conflict step of `upload_program`: when the RCP
slot exists and its name case-insensitively equals the program name,
hold it when running, then kill it. -/
def rcpConflict (ch : Channel) (pname : String) (st : RcpStatus)
    (r : UploadResult) (tr : List Cmd) : StageOut :=
  if st.is_exist && (pyLower st.name == pyLower pname) then
    if st.is_running then
      let s1 := step ch tr Cmd.rcpHold
      match s1.2 with
      | some msg => ⟨{ r with error_message := some msg }, s1.1, true⟩
      | none =>
        let s2 := step ch s1.1 Cmd.killRcp
        match s2.2 with
        | some msg => ⟨{ r with error_message := some msg }, s2.1, true⟩
        | none => ⟨r, s2.1, false⟩
    else
      let s1 := step ch tr Cmd.killRcp
      match s1.2 with
      | some msg => ⟨{ r with error_message := some msg }, s1.1, true⟩
      | none => ⟨r, s1.1, false⟩
  else ⟨r, tr, false⟩

/-- The f-string `f"Program {program_name} did not found in the file."`. -/
def notFoundMsg (pname : String) : String :=
  "Program " ++ pname ++ " did not found in the file."

/-- The f-string `f"Program {program_name} is not valid."`. -/
def notValidMsg (pname : String) : String :=
  "Program " ++ pname ++ " is not valid."

/-- The main-program step of `upload_program`: extract the `program`
section; when empty, record the not-found message and return; when
invalid, record the invalid message and return; otherwise push its bytes
and set `program_uploaded`. -/
def stMain (ch : Channel) (pname ptext : String) (r : UploadResult)
    (tr : List Cmd) : StageOut :=
  match find_section ptext pname "program" with
  | Except.error e => ⟨{ r with error_message := some e }, tr, true⟩
  | Except.ok pg =>
    if pg = "" then
      ⟨{ r with error_message := some (notFoundMsg pname) }, tr, true⟩
    else if ¬ is_pg_valid pg then
      ⟨{ r with error_message := some (notValidMsg pname) }, tr, true⟩
    else
      let s1 := step ch tr (Cmd.uploadBytes pg)
      match s1.2 with
      | some msg => ⟨{ r with error_message := some msg }, s1.1, true⟩
      | none => ⟨{ r with program_uploaded := true }, s1.1, false⟩

/-- The trans-points step of `upload_program`: when the `trans` section is
non-empty, push its bytes, then set both trans flags; when empty, set
`trans_points_exist := false`. -/
def stTrans (ch : Channel) (pname ptext : String) (r : UploadResult)
    (tr : List Cmd) : StageOut :=
  match find_section ptext pname "trans" with
  | Except.error e => ⟨{ r with error_message := some e }, tr, true⟩
  | Except.ok ts =>
    if ts = "" then ⟨{ r with trans_points_exist := false }, tr, false⟩
    else
      let s1 := step ch tr (Cmd.uploadBytes ts)
      match s1.2 with
      | some msg => ⟨{ r with error_message := some msg }, s1.1, true⟩
      | none =>
        ⟨{ r with trans_points_uploaded := true, trans_points_exist := true },
          s1.1, false⟩

/-- The joints-points step of `upload_program`, identical in shape to the
trans step. -/
def stJoints (ch : Channel) (pname ptext : String) (r : UploadResult)
    (tr : List Cmd) : StageOut :=
  match find_section ptext pname "joints" with
  | Except.error e => ⟨{ r with error_message := some e }, tr, true⟩
  | Except.ok js =>
    if js = "" then ⟨{ r with joints_points_exist := false }, tr, false⟩
    else
      let s1 := step ch tr (Cmd.uploadBytes js)
      match s1.2 with
      | some msg => ⟨{ r with error_message := some msg }, s1.1, true⟩
      | none =>
        ⟨{ r with joints_points_uploaded := true, joints_points_exist := true },
          s1.1, false⟩

/-- The optional activation step of `upload_program`: when requested,
issue `rcp_prime` and set `program_loaded`. -/
def stPrime (ch : Channel) (pname : String) (openp : Bool)
    (r : UploadResult) (tr : List Cmd) : StageOut :=
  if openp then
    let s1 := step ch tr (Cmd.rcpPrime pname)
    match s1.2 with
    | some msg => ⟨{ r with error_message := some msg }, s1.1, true⟩
    | none => ⟨{ r with program_loaded := true }, s1.1, false⟩
  else ⟨r, tr, false⟩

/-- The steps of `upload_program` after the auxiliary-thread conflict
loop. -/
def uploadAfterPC (ch : Channel) (pname ptext : String) (openp : Bool)
    (s2 : StageOut) : StageOut :=
  let s3 := andThen s2 (fun r tr => rcpConflict ch pname ch.rcpStatus r tr)
  let s4 := andThen s3 (fun r tr => stMain ch pname ptext r tr)
  let s5 := andThen s4 (fun r tr => stTrans ch pname ptext r tr)
  let s6 := andThen s5 (fun r tr => stJoints ch pname ptext r tr)
  andThen s6 (fun r tr => stPrime ch pname openp r tr)

/-- Model of `KHIRoLibLite.upload_program(program_name, program_text,
open_program)`: the returned `UploadResult` together with the sequence of
channel commands issued during the call. -/
def upload_program (ch : Channel) (pname ptext : String) (openp : Bool) :
    UploadResult × List Cmd :=
  let s1 := stGetStatuses ch {} []
  let s2 := andThen s1 (fun r tr => pcConflict ch pname r ch.pcStatuses tr)
  let s := uploadAfterPC ch pname ptext openp s2
  (s.result, s.trace)

/-- The deletion loop of `delete_programs`: delete each named program in
order; a channel failure propagates immediately (there is no handler), so
no further deletion is attempted. -/
def deleteLoop (ch : Channel) : List String → List Cmd → List Cmd × Option String
  | [], tr => (tr, none)
  | n :: rest, tr =>
    let s1 := step ch tr (Cmd.pgDelete n)
    match s1.2 with
    | some e => (s1.1, some e)
    | none => deleteLoop ch rest s1.1

/-- Model of `KHIRoLibLite.delete_programs(pg_list, force)`: the issued
command trace and the exception that escaped the call, if any. -/
def delete_programs (ch : Channel) (pg_list : List String) (force : Bool) :
    List Cmd × Option String :=
  if pg_list.length = 0 then ([], none)
  else if force then
    let s1 := step ch [] Cmd.getRcpStatus
    match s1.2 with
    | some e => (s1.1, some e)
    | none =>
      if ch.rcpStatus.is_exist && pg_list.contains ch.rcpStatus.name then
        if ch.rcpStatus.is_running then
          let s2 := step ch s1.1 Cmd.rcpHold
          match s2.2 with
          | some e => (s2.1, some e)
          | none =>
            let s3 := step ch s2.1 Cmd.killRcp
            match s3.2 with
            | some e => (s3.1, some e)
            | none => deleteLoop ch pg_list s3.1
        else
          let s2 := step ch s1.1 Cmd.killRcp
          match s2.2 with
          | some e => (s2.1, some e)
          | none => deleteLoop ch pg_list s2.1
      else deleteLoop ch pg_list s1.1
  else deleteLoop ch pg_list []

/-- The `section_start` value after scanning a block of lines: the index of
the last opening-delimiter line, defaulting to the incoming value. -/
def updSt (p : String → Bool) : List String → Nat → Option Nat → Option Nat
  | [], _, st => st
  | l :: rest, i, st => updSt p rest (i + 1) (if p l then some i else st)

/-- A stage's result is the incoming record, possibly with an error
message recorded. -/
def resultShape (a r : UploadResult) : Prop :=
  a = r ∨ ∃ msg, a = { r with error_message := some msg }

/-- A command that is neither a thread abort nor a thread kill. -/
@[reducible] def notPcCmd (c : Cmd) : Prop :=
  (∀ m, c ≠ Cmd.pcAbort m) ∧ (∀ m, c ≠ Cmd.pcKill m)

/-- A command that is not a byte upload. -/
@[reducible] def notUploadCmd (c : Cmd) : Prop := ∀ s, c ≠ Cmd.uploadBytes s

/-- The record after a successful program and trans upload. -/
def afterTransResult : UploadResult :=
  { program_uploaded := true, trans_points_uploaded := true, trans_points_exist := true }

/-! ## Concrete channels and program texts used by witnesses and
counterexamples -/

/-- A channel whose fourth command (the trans-section push) raises. -/
def chC1 : Channel :=
  ⟨[], ⟨"", false, false⟩, fun n => if n = 3 then some "channel write failed" else none⟩

/-- A never-failing channel with no conflicting programs. -/
def chC1w : Channel := ⟨[], ⟨"", false, false⟩, fun _ => none⟩

/-- A program text with a valid program section and a trans section. -/
def txtC1 : String := ".PROGRAM T()\nx\n.END\n.TRANS\npt\n.END"

/-- A never-failing channel with no conflicting programs. -/
def chC3w : Channel := ⟨[], ⟨"", false, false⟩, fun _ => none⟩

/-- A never-failing channel whose thread slot 2 runs `test1`. -/
def chC4w : Channel := ⟨[⟨2, "test1", true, true⟩], ⟨"", false, false⟩, fun _ => none⟩

/-- A program text with valid program and trans sections for `TEST1`. -/
def txtC4 : String := ".PROGRAM TEST1()\nx\n.END\n.TRANS\npt\n.END"

/-- A never-failing channel whose continuous-path slot runs `A`. -/
def chC6w : Channel := ⟨[], ⟨"A", true, true⟩, fun _ => none⟩

/-- A never-failing channel with no conflicting programs. -/
def chC9w : Channel := ⟨[], ⟨"", false, false⟩, fun _ => none⟩

/-- A program text with program, trans and joints sections. -/
def txtC9 : String := ".PROGRAM T()\nx\n.END\n.TRANS\npt\n.END\n.JOINTS\njt\n.END"

/-- A never-failing channel whose thread slot 2 and continuous-path slot
both run (case-variants of) `TEST1`. -/
def chC10w : Channel :=
  ⟨[⟨2, "test1", true, true⟩], ⟨"Test1", true, true⟩, fun _ => none⟩


/-! ## Lemmas about the string primitives -/

/-- `String.append` concatenates the character lists. -/
theorem stringDataAppend (a b : String) : (a ++ b).data = a.data ++ b.data := rfl

/-- `String.mk` undoes `String.data`. -/
theorem stringMkData (s : String) : String.mk s.data = s := rfl

/-- A string with a non-empty prefix is non-empty. -/
theorem pyStartsWith_ne_empty {s pre : String} {c : Char} {cs : List Char}
    (hd : pre.data = c :: cs) (h : pyStartsWith s pre = true) : s ≠ "" := by
  intro he
  rw [pyStartsWith, hd, he] at h
  simp [isPrefixL] at h

/-- Two prefixes of the same string that agree on the first character but
differ on the second cannot both hold. -/
theorem isPrefixL_second_ne {c d1 d2 : Char} {t1 t2 s : List Char}
    (hne : d2 ≠ d1) (h : isPrefixL (c :: d1 :: t1) s = true) :
    isPrefixL (c :: d2 :: t2) s = false := by
  match s with
  | [] => simp [isPrefixL] at h
  | [a] => simp [isPrefixL] at h
  | a :: b :: s' =>
    simp only [isPrefixL, Bool.and_eq_true, beq_iff_eq] at h
    obtain ⟨hca, hdb, -⟩ := h
    subst hca hdb
    simp [isPrefixL, hne]

/-- The `.PROGRAM ` opening delimiter starts with `'.'`, `'P'`. -/
theorem progPrefix_data (pname : String) :
    (".PROGRAM " ++ pname ++ "(").data =
      '.' :: 'P' :: ("ROGRAM ".data ++ pname.data ++ "(".data) := by
  show ((".PROGRAM " ++ pname) ++ "(").data = _
  rw [stringDataAppend, stringDataAppend]
  rfl

/-- A `.END` line does not open a `program` section. -/
theorem end_not_progOpen {s : String} (pname : String)
    (h : pyStartsWith s ".END" = true) : progOpen pname s = false := by
  rw [pyStartsWith] at h
  rw [progOpen, pyStartsWith, progPrefix_data]
  exact isPrefixL_second_ne (by decide) h

/-- A `program`-opening line does not start with `.END`. -/
theorem progOpen_not_end {s : String} {pname : String}
    (h : progOpen pname s = true) : pyStartsWith s ".END" = false := by
  rw [progOpen, pyStartsWith, progPrefix_data] at h
  rw [pyStartsWith]
  exact isPrefixL_second_ne (by decide) h

/-- A `.END` line does not open a `trans` section. -/
theorem end_not_transOpen {s : String} (h : pyStartsWith s ".END" = true) :
    transOpen s = false := by
  rw [pyStartsWith] at h
  rw [transOpen, pyStartsWith]
  exact isPrefixL_second_ne (by decide) h

/-- A `trans`-opening line does not start with `.END`. -/
theorem transOpen_not_end {s : String} (h : transOpen s = true) :
    pyStartsWith s ".END" = false := by
  rw [transOpen, pyStartsWith] at h
  rw [pyStartsWith]
  exact isPrefixL_second_ne (by decide) h

/-- A `.END` line does not open a `joints` section. -/
theorem end_not_jointsOpen {s : String} (h : pyStartsWith s ".END" = true) :
    jointsOpen s = false := by
  rw [pyStartsWith] at h
  rw [jointsOpen, pyStartsWith]
  exact isPrefixL_second_ne (by decide) h

/-- A `joints`-opening line does not start with `.END`. -/
theorem jointsOpen_not_end {s : String} (h : jointsOpen s = true) :
    pyStartsWith s ".END" = false := by
  rw [jointsOpen, pyStartsWith] at h
  rw [pyStartsWith]
  exact isPrefixL_second_ne (by decide) h

/-- The split of a character list is never the empty list of parts. -/
theorem splitPred_ne_nil (p : Char → Bool) :
    ∀ cs, pySplitPredData p cs ≠ [] := by
  intro cs
  induction cs with
  | nil => simp [pySplitPredData]
  | cons a rest ih =>
    by_cases hp : p a
    · simp [pySplitPredData, hp]
    · cases hr : pySplitPredData p rest with
      | nil => exact absurd hr ih
      | cons h t => simp [pySplitPredData, hp, hr]

/-- No part produced by the split contains a separator character. -/
theorem mem_splitPred_nosep (p : Char → Bool) :
    ∀ cs, ∀ l ∈ pySplitPredData p cs, ∀ a ∈ l, p a = false := by
  intro cs
  induction cs with
  | nil =>
    intro l hl
    simp [pySplitPredData] at hl
    simp [hl]
  | cons c rest ih =>
    intro l hl
    by_cases hp : p c
    · simp [pySplitPredData, hp] at hl
      rcases hl with hl | hl
      · simp [hl]
      · exact ih l hl
    · cases hr : pySplitPredData p rest with
      | nil => exact absurd hr (splitPred_ne_nil p rest)
      | cons h t =>
        simp [pySplitPredData, hp, hr] at hl
        rcases hl with hl | hl
        · intro a ha
          rw [hl] at ha
          rcases List.mem_cons.mp ha with ha | ha
          · rw [ha]; simpa using hp
          · exact ih h (by rw [hr]; exact List.mem_cons_self h t) a ha
        · exact ih l (by rw [hr]; exact List.mem_cons_of_mem h hl)

/-- Splitting a list without separators yields that single part. -/
theorem splitPred_nosep_id (p : Char → Bool) :
    ∀ cs, (∀ a ∈ cs, p a = false) → pySplitPredData p cs = [cs] := by
  intro cs
  induction cs with
  | nil => intro _; rfl
  | cons c rest ih =>
    intro h
    have hp : p c = false := h c (List.mem_cons_self c rest)
    have hr := ih (fun a ha => h a (List.mem_cons_of_mem c ha))
    simp [pySplitPredData, hp, hr]

/-- Splitting `h ++ sep :: t` when `h` is separator-free peels off `h`. -/
theorem splitPred_sep_append (p : Char → Bool) (sep : Char)
    (hsep : p sep = true) :
    ∀ h t, (∀ a ∈ h, p a = false) →
      pySplitPredData p (h ++ sep :: t) = h :: pySplitPredData p t := by
  intro h
  induction h with
  | nil => intro t _; simp [pySplitPredData, hsep]
  | cons c h' ih =>
    intro t hh
    have hp : p c = false := hh c (List.mem_cons_self c h')
    have hr := ih t (fun a ha => hh a (List.mem_cons_of_mem c ha))
    simp [pySplitPredData, hp, hr]

/-- Splitting undoes joining for a non-empty list of separator-free
parts. -/
theorem splitPred_join (p : Char → Bool) (sep : Char) (hsep : p sep = true) :
    ∀ L, L ≠ [] → (∀ l ∈ L, ∀ a ∈ l, p a = false) →
      pySplitPredData p (pyJoinData sep L) = L := by
  intro L
  induction L with
  | nil => intro h; exact absurd rfl h
  | cons l L ih =>
    intro _ hfree
    cases L with
    | nil =>
      simp only [pyJoinData]
      exact splitPred_nosep_id p l (hfree l (List.mem_cons_self l []))
    | cons l2 L2 =>
      have hjoin : pyJoinData sep (l :: l2 :: L2) =
          l ++ sep :: pyJoinData sep (l2 :: L2) := rfl
      rw [hjoin,
        splitPred_sep_append p sep hsep l _ (hfree l (List.mem_cons_self l _)),
        ih (by simp) (fun x hx => hfree x (List.mem_cons_of_mem l hx))]

/-- Lines produced by `pySplitNl` contain no newline character. -/
theorem mem_pySplitNl_no_nl {content : String} {l : String}
    (h : l ∈ pySplitNl content) : ∀ a ∈ l.data, (a == '\n') = false := by
  rw [pySplitNl] at h
  obtain ⟨cs, hcs, hl⟩ := List.mem_map.mp h
  have : l.data = cs := by rw [← hl]
  rw [this]
  exact mem_splitPred_nosep _ _ cs hcs

/-- `pySplitNl` undoes `pyJoinNl` on a non-empty list of newline-free
lines. -/
theorem pySplitNl_joinNl (L : List String) (hne : L ≠ [])
    (h : ∀ l ∈ L, ∀ a ∈ l.data, (a == '\n') = false) :
    pySplitNl (pyJoinNl L) = L := by
  rw [pySplitNl, pyJoinNl]
  have hmapne : L.map String.data ≠ [] := by
    intro hc; exact hne (List.map_eq_nil_iff.mp hc)
  have hfree : ∀ l ∈ L.map String.data, ∀ a ∈ l, (a == '\n') = false := by
    intro l hl a ha
    obtain ⟨s, hs, hleq⟩ := List.mem_map.mp hl
    exact h s hs a (by rw [hleq]; exact ha)
  rw [stringMkData, splitPred_join _ '\n' (by decide) _ hmapne hfree]
  have hid : (fun s : String => String.mk s.data) = id := funext fun s => rfl
  rw [List.map_map]
  show L.map (fun s : String => String.mk s.data) = L
  rw [hid, List.map_id]

/-! ## Lemmas about the section scan -/

theorem updSt_noopen (p : String → Bool) :
    ∀ X, (∀ l ∈ X, p l = false) → ∀ i st, updSt p X i st = st := by
  intro X
  induction X with
  | nil => intro _ i st; rfl
  | cons l X ih =>
    intro h i st
    have hl : p l = false := h l (List.mem_cons_self l X)
    rw [updSt, hl]
    exact ih (fun x hx => h x (List.mem_cons_of_mem l hx)) (i + 1) st

theorem updSt_append (p : String → Bool) :
    ∀ X Y i st, updSt p (X ++ Y) i st =
      updSt p Y (i + X.length) (updSt p X i st) := by
  intro X
  induction X with
  | nil => intro Y i st; simp [updSt]
  | cons l X ih =>
    intro Y i st
    rw [List.cons_append, updSt, ih]
    have h1 : i + 1 + X.length = i + (l :: X).length := by
      simp only [List.length_cons]
      omega
    rw [h1]
    rfl

/-- Scanning lines that do not open the section, with no opening seen yet,
just advances the index. -/
theorem genLoop_skip_noopen (p : String → Bool) :
    ∀ A, (∀ l ∈ A, p l = false) →
      ∀ rest i, genLoop p (A ++ rest) i none = genLoop p rest (i + A.length) none := by
  intro A
  induction A with
  | nil => intro _ rest i; simp
  | cons a A ih =>
    intro h rest i
    have ha : p a = false := h a (List.mem_cons_self a A)
    rw [List.cons_append, genLoop, ha]
    show genLoop p (A ++ rest) (i + 1) none = _
    rw [ih (fun x hx => h x (List.mem_cons_of_mem a hx)) rest (i + 1)]
    have h1 : i + 1 + A.length = i + (a :: A).length := by
      simp only [List.length_cons]
      omega
    rw [h1]

/-- Scanning lines none of which starts with `.END` advances the index and
updates `section_start` through `updSt`, whatever its current value. -/
theorem genLoop_skip_noend (p : String → Bool) :
    ∀ B, (∀ l ∈ B, pyStartsWith l ".END" = false) →
      ∀ rest i st, genLoop p (B ++ rest) i st =
        genLoop p rest (i + B.length) (updSt p B i st) := by
  intro B
  induction B with
  | nil => intro _ rest i st; simp [updSt]
  | cons b B ih =>
    intro h rest i st
    have hb : pyStartsWith b ".END" = false := h b (List.mem_cons_self b B)
    have hrec := ih (fun x hx => h x (List.mem_cons_of_mem b hx)) rest (i + 1)
    have harith : i + 1 + B.length = i + (b :: B).length := by
      simp only [List.length_cons]
      omega
    rw [List.cons_append, genLoop, updSt]
    cases hst : (if p b then some i else st) with
    | none =>
      show genLoop p (B ++ rest) (i + 1) none = _
      rw [hrec none, harith]
    | some s =>
      show (if pyStartsWith b ".END" = true then some (s, i)
          else genLoop p (B ++ rest) (i + 1) (some s)) = _
      rw [hb]
      show genLoop p (B ++ rest) (i + 1) (some s) = _
      rw [hrec (some s), harith]

/-- When `section_start` is set, the scan stops at a `.END` line that does
not itself open the section. -/
theorem genLoop_break (p : String → Bool) (endl : String) (C : List String)
    (i s : Nat) (hend : pyStartsWith endl ".END" = true)
    (hpe : p endl = false) : genLoop p (endl :: C) i (some s) = some (s, i) := by
  rw [genLoop, hpe]
  show (if pyStartsWith endl ".END" = true then some (s, i)
      else genLoop p C (i + 1) (some s)) = some (s, i)
  rw [hend]
  rfl

/-- A scan over lines with no opening delimiter finds nothing. -/
theorem genLoop_noopen_none (p : String → Bool) (L : List String)
    (h : ∀ l ∈ L, p l = false) (i : Nat) : genLoop p L i none = none := by
  have h2 := genLoop_skip_noopen p L h [] i
  rw [List.append_nil] at h2
  rw [h2]
  rfl

/-- A scan over lines none of which starts with `.END` finds nothing. -/
theorem genLoop_noend_none (p : String → Bool) (L : List String)
    (h : ∀ l ∈ L, pyStartsWith l ".END" = false) (i : Nat) (st : Option Nat) :
    genLoop p L i st = none := by
  have h2 := genLoop_skip_noend p L h [] i st
  rw [List.append_nil] at h2
  rw [h2]
  rfl

/-- Compute `findSectionG` from a successful scan. -/
theorem findSectionG_of_some (p : String → Bool) (content : String)
    (s e : Nat) (h : genLoop p (pySplitNl content) 0 none = some (s, e)) :
    findSectionG p content =
      pyJoinNl (((pySplitNl content).drop s).take (e + 1 - s)) := by
  simp only [findSectionG]
  rw [h]

/-- Compute `findSectionG` from a failed scan. -/
theorem findSectionG_of_none (p : String → Bool) (content : String)
    (h : genLoop p (pySplitNl content) 0 none = none) :
    findSectionG p content = "" := by
  simp only [findSectionG]
  rw [h]

/-! ## Transport from `find_section` to `genLoop` -/

theorem findSectionLoop_program (pname : String) :
    ∀ L i st, findSectionLoop pname "program" L i st =
      Except.ok (genLoop (progOpen pname) L i st) := by
  intro L
  induction L with
  | nil => intro i st; rfl
  | cons l L ih =>
    intro i st
    show (match (if progOpen pname l then some i else st) with
        | some s =>
          if pyStartsWith l ".END" then Except.ok (some (s, i))
          else findSectionLoop pname "program" L (i + 1) (some s)
        | none => findSectionLoop pname "program" L (i + 1) none) = _
    rw [genLoop]
    cases hst : (if progOpen pname l then some i else st) with
    | none => exact ih (i + 1) none
    | some s =>
      cases he : pyStartsWith l ".END" with
      | true => rfl
      | false => exact ih (i + 1) (some s)

theorem findSectionLoop_trans (pname : String) :
    ∀ L i st, findSectionLoop pname "trans" L i st =
      Except.ok (genLoop transOpen L i st) := by
  intro L
  induction L with
  | nil => intro i st; rfl
  | cons l L ih =>
    intro i st
    show (match (if transOpen l then some i else st) with
        | some s =>
          if pyStartsWith l ".END" then Except.ok (some (s, i))
          else findSectionLoop pname "trans" L (i + 1) (some s)
        | none => findSectionLoop pname "trans" L (i + 1) none) = _
    rw [genLoop]
    cases hst : (if transOpen l then some i else st) with
    | none => exact ih (i + 1) none
    | some s =>
      cases he : pyStartsWith l ".END" with
      | true => rfl
      | false => exact ih (i + 1) (some s)

theorem findSectionLoop_joints (pname : String) :
    ∀ L i st, findSectionLoop pname "joints" L i st =
      Except.ok (genLoop jointsOpen L i st) := by
  intro L
  induction L with
  | nil => intro i st; rfl
  | cons l L ih =>
    intro i st
    show (match (if jointsOpen l then some i else st) with
        | some s =>
          if pyStartsWith l ".END" then Except.ok (some (s, i))
          else findSectionLoop pname "joints" L (i + 1) (some s)
        | none => findSectionLoop pname "joints" L (i + 1) none) = _
    rw [genLoop]
    cases hst : (if jointsOpen l then some i else st) with
    | none => exact ih (i + 1) none
    | some s =>
      cases he : pyStartsWith l ".END" with
      | true => rfl
      | false => exact ih (i + 1) (some s)

/-- `find_section` with the `program` type never raises and is computed by
`findSectionG`. -/
theorem find_section_program (content pname : String) :
    find_section content pname "program" =
      Except.ok (findSectionG (progOpen pname) content) := by
  simp only [find_section, findSectionG, findSectionLoop_program]
  cases genLoop (progOpen pname) (pySplitNl content) 0 none with
  | none => rfl
  | some se => rfl

/-- `find_section` with the `trans` type never raises and is computed by
`findSectionG`. -/
theorem find_section_trans (content pname : String) :
    find_section content pname "trans" =
      Except.ok (findSectionG transOpen content) := by
  simp only [find_section, findSectionG, findSectionLoop_trans]
  cases genLoop transOpen (pySplitNl content) 0 none with
  | none => rfl
  | some se => rfl

/-- `find_section` with the `joints` type never raises and is computed by
`findSectionG`. -/
theorem find_section_joints (content pname : String) :
    find_section content pname "joints" =
      Except.ok (findSectionG jointsOpen content) := by
  simp only [find_section, findSectionG, findSectionLoop_joints]
  cases genLoop jointsOpen (pySplitNl content) 0 none with
  | none => rfl
  | some se => rfl

/-- The central characterization of a successful section extraction: with
lines `A ++ B1 ++ b2 :: B2 ++ endl :: C` where `A` has no opening
delimiter, no line from `B1` up to `b2 :: B2` starts with `.END`, `b2`
opens the section, `B2` has no opening delimiter, and `endl` starts with
`.END`, the scan returns the block from `b2` (the *last* opening before
the closing line) to `endl` inclusive.  Lines of `B1` may or may not open
the section; lines of `C` are never reached. -/
theorem findSectionG_spec (p : String → Bool) (content : String)
    (A B1 B2 C : List String) (b2 endl : String)
    (hsplit : pySplitNl content = A ++ B1 ++ b2 :: B2 ++ endl :: C)
    (hA : ∀ l ∈ A, p l = false)
    (hB1 : ∀ l ∈ B1, pyStartsWith l ".END" = false)
    (hb2 : p b2 = true) (hb2e : pyStartsWith b2 ".END" = false)
    (hB2o : ∀ l ∈ B2, p l = false)
    (hB2e : ∀ l ∈ B2, pyStartsWith l ".END" = false)
    (hend : pyStartsWith endl ".END" = true) (hendp : p endl = false) :
    findSectionG p content = pyJoinNl (b2 :: B2 ++ [endl]) := by
  have hBe : ∀ l ∈ B1 ++ b2 :: B2, pyStartsWith l ".END" = false := by
    intro l hl
    rcases List.mem_append.mp hl with hl | hl
    · exact hB1 l hl
    · rcases List.mem_cons.mp hl with hl | hl
      · rw [hl]; exact hb2e
      · exact hB2e l hl
  have hg : genLoop p (pySplitNl content) 0 none =
      some (A.length + B1.length, A.length + (B1.length + (B2.length + 1))) := by
    have hassoc : A ++ B1 ++ b2 :: B2 ++ endl :: C =
        A ++ ((B1 ++ b2 :: B2) ++ endl :: C) := by simp
    rw [hsplit, hassoc, genLoop_skip_noopen p A hA,
      genLoop_skip_noend p (B1 ++ b2 :: B2) hBe]
    have hupd : updSt p (B1 ++ b2 :: B2) (0 + A.length) none =
        some (A.length + B1.length) := by
      rw [updSt_append, updSt, hb2]
      show updSt p B2 (0 + A.length + B1.length + 1) (some (0 + A.length + B1.length)) = _
      rw [updSt_noopen p B2 hB2o]
      have h0 : 0 + A.length + B1.length = A.length + B1.length := by omega
      rw [h0]
    rw [hupd, genLoop_break p endl C _ _ hend hendp]
    have h3 : 0 + A.length + (B1 ++ b2 :: B2).length =
        A.length + (B1.length + (B2.length + 1)) := by
      simp only [List.length_append, List.length_cons]
      omega
    rw [h3]
  rw [findSectionG_of_some p content _ _ hg, hsplit]
  have h2 : A ++ B1 ++ b2 :: B2 ++ endl :: C =
      (A ++ B1) ++ (b2 :: B2 ++ endl :: C) := by simp
  have harith : A.length + (B1.length + (B2.length + 1)) + 1 -
      (A.length + B1.length) = B2.length + 2 := by omega
  have hdrop : List.drop (A.length + B1.length) ((A ++ B1) ++ (b2 :: B2 ++ endl :: C)) =
      b2 :: B2 ++ endl :: C := by
    rw [← List.length_append A B1]
    exact List.drop_left _ _
  have htake : List.take (B2.length + 2) (b2 :: B2 ++ endl :: C) =
      b2 :: B2 ++ [endl] := by
    have hsp : b2 :: B2 ++ endl :: C = (b2 :: B2 ++ [endl]) ++ C := by simp
    rw [hsp]
    exact List.take_left' (by simp)
  rw [h2, harith, hdrop, htake]

/-! ## Lemmas about the statement validator -/

theorem checkValues_iff (L : List String) :
    checkValues L = true ↔
      ∀ v ∈ L, pyStrip v ≠ "" ∧ pyFloatOk (pyStrip v) = true := by
  induction L with
  | nil => simp [checkValues]
  | cons v rest ih =>
    simp only [checkValues]
    by_cases h1 : pyStrip v = ""
    · simp [h1]
    · by_cases h2 : pyFloatOk (pyStrip v) = true
      · simp [h1, h2, ih]
      · simp [h1, h2]

theorem checkSetcondw_iff (line : String) :
    checkSetcondw line = true ↔ specSetcondwLineOk line := by
  rw [checkSetcondw, specSetcondwLineOk]
  cases hsp : pySplitWs line with
  | nil =>
    constructor
    · intro h; exact absurd h (by simp)
    · rintro ⟨q0, q1, qrest, heq, -⟩
      exact absurd heq (by simp)
  | cons p0 tail =>
    cases tail with
    | nil =>
      constructor
      · intro h; exact absurd h (by simp)
      · rintro ⟨q0, q1, qrest, heq, -⟩
        exact absurd heq (by simp)
    | cons p1 rest =>
      show (if ¬ pyContains p1 '=' = true then false
          else if ¬ pyIsDigit (String.mk (splitFirstEq p1.data).1) = true then false
          else checkValues (pySplitComma (String.mk (splitFirstEq p1.data).2))) = true ↔ _
      by_cases hc : pyContains p1 '=' = true
      · by_cases hd : pyIsDigit (String.mk (splitFirstEq p1.data).1) = true
        · rw [if_neg (by simp [hc]), if_neg (by simp [hd])]
          constructor
          · intro h
            exact ⟨p0, p1, rest, rfl, hc, hd, (checkValues_iff _).mp h⟩
          · rintro ⟨q0, q1, qrest, heq, hc2, hd2, hv⟩
            injection heq with h0 heq2
            injection heq2 with h1 h2
            subst h1
            exact (checkValues_iff _).mpr hv
        · rw [if_neg (by simp [hc]), if_pos (by simp [hd])]
          constructor
          · intro h; exact absurd h (by simp)
          · rintro ⟨q0, q1, qrest, heq, hc2, hd2, hv⟩
            injection heq with h0 heq2
            injection heq2 with h1 h2
            subst h1
            exact absurd hd2 hd
      · rw [if_pos (by simp [hc])]
        constructor
        · intro h; exact absurd h (by simp)
        · rintro ⟨q0, q1, qrest, heq, hc2, -⟩
          injection heq with h0 heq2
          injection heq2 with h1 h2
          subst h1
          exact absurd hc2 hc

theorem startsWith_SETCONDW_ne_empty {l : String}
    (h : pyStartsWith l "SETCONDW" = true) : l ≠ "" :=
  @pyStartsWith_ne_empty _ _ 'S' "ETCONDW".data rfl h

theorem isPgValidGo_iff (L : List String) :
    isPgValidGo L = true ↔
      ∀ l ∈ L, pyStartsWith (pyStrip l) "SETCONDW" = true →
        checkSetcondw (pyStrip l) = true := by
  induction L with
  | nil => simp [isPgValidGo]
  | cons l rest ih =>
    simp only [isPgValidGo]
    by_cases hsw : pyStartsWith (pyStrip l) "SETCONDW" = true
    · have hne : pyStrip l ≠ "" := startsWith_SETCONDW_ne_empty hsw
      have hcond : (pyStrip l != "" && pyStartsWith (pyStrip l) "SETCONDW") = true := by
        simp [hne, hsw]
      rw [if_pos hcond]
      by_cases hck : checkSetcondw (pyStrip l) = true
      · rw [if_pos hck]
        simp [ih, hsw, hck]
      · rw [if_neg hck]
        simp only [List.forall_mem_cons]
        constructor
        · intro h; exact absurd h (by simp)
        · rintro ⟨h1, -⟩
          exact absurd (h1 hsw) hck
    · have hcond : (pyStrip l != "" && pyStartsWith (pyStrip l) "SETCONDW") = false := by
        simp only [Bool.and_eq_false_iff]
        right
        simp [hsw]
      rw [hcond]
      simp only [Bool.false_eq_true, if_false, List.forall_mem_cons]
      rw [ih]
      constructor
      · intro h
        exact ⟨fun hh => absurd hh hsw, h⟩
      · rintro ⟨-, h⟩; exact h

/-! ## Lemmas about the upload orchestrator -/

theorem andThen_done {s : StageOut} (f : UploadResult → List Cmd → StageOut)
    (h : s.done = true) : andThen s f = s := by
  rw [andThen, if_pos h]

theorem andThen_not_done {s : StageOut} (f : UploadResult → List Cmd → StageOut)
    (h : s.done = false) : andThen s f = f s.result s.trace := by
  rw [andThen, if_neg (by simp [h])]

theorem resultShape_refl (r : UploadResult) : resultShape r r := Or.inl rfl

theorem resultShape_trans {b a r : UploadResult} (h1 : resultShape b a)
    (h2 : resultShape a r) : resultShape b r := by
  rcases h1 with h1 | ⟨m1, h1⟩ <;> rcases h2 with h2 | ⟨m2, h2⟩ <;> subst h1 <;> subst h2
  · exact Or.inl rfl
  · exact Or.inr ⟨m2, rfl⟩
  · exact Or.inr ⟨m1, rfl⟩
  · exact Or.inr ⟨m1, rfl⟩

theorem resultShape_flags {a r : UploadResult} (h : resultShape a r) :
    a.program_uploaded = r.program_uploaded ∧
    a.trans_points_uploaded = r.trans_points_uploaded ∧
    a.trans_points_exist = r.trans_points_exist ∧
    a.joints_points_uploaded = r.joints_points_uploaded ∧
    a.joints_points_exist = r.joints_points_exist ∧
    a.program_loaded = r.program_loaded := by
  rcases h with h | ⟨m, h⟩ <;> subst h <;> simp

theorem andThen_shape {s : StageOut} {f : UploadResult → List Cmd → StageOut}
    {r : UploadResult} (hs : resultShape s.result r)
    (hf : ∀ r' tr, resultShape (f r' tr).result r') :
    resultShape (andThen s f).result r := by
  by_cases hd : s.done = true
  · rw [andThen_done f hd]; exact hs
  · rw [andThen_not_done f (by simpa using hd)]
    exact resultShape_trans (hf s.result s.trace) hs

theorem stGetStatuses_shape (ch : Channel) (r : UploadResult) (tr : List Cmd) :
    resultShape (stGetStatuses ch r tr).result r := by
  simp only [stGetStatuses, step]
  (repeat' split) <;> first
    | exact Or.inl rfl
    | exact Or.inr ⟨_, rfl⟩

theorem pcConflict_shape (ch : Channel) (pname : String) (r : UploadResult) :
    ∀ lst tr, resultShape (pcConflict ch pname r lst tr).result r := by
  intro lst
  induction lst with
  | nil => intro tr; exact Or.inl rfl
  | cons e rest ih =>
    intro tr
    simp only [pcConflict, step]
    (repeat' split) <;> first
      | exact Or.inl rfl
      | exact Or.inr ⟨_, rfl⟩
      | exact ih tr

theorem rcpConflict_shape (ch : Channel) (pname : String) (st : RcpStatus)
    (r : UploadResult) (tr : List Cmd) :
    resultShape (rcpConflict ch pname st r tr).result r := by
  simp only [rcpConflict, step]
  (repeat' split) <;> first
    | exact Or.inl rfl
    | exact Or.inr ⟨_, rfl⟩

/-- `stMain` never touches the trans/joints flags. -/
theorem stMain_fields (ch : Channel) (pname ptext : String) (r : UploadResult)
    (tr : List Cmd) :
    (stMain ch pname ptext r tr).result.trans_points_uploaded = r.trans_points_uploaded ∧
    (stMain ch pname ptext r tr).result.trans_points_exist = r.trans_points_exist ∧
    (stMain ch pname ptext r tr).result.joints_points_uploaded = r.joints_points_uploaded ∧
    (stMain ch pname ptext r tr).result.joints_points_exist = r.joints_points_exist := by
  simp only [stMain, step]
  (repeat' split) <;> simp

/-- `stTrans` never touches the joints flags or `program_uploaded`. -/
theorem stTrans_fields (ch : Channel) (pname ptext : String) (r : UploadResult)
    (tr : List Cmd) :
    (stTrans ch pname ptext r tr).result.joints_points_uploaded = r.joints_points_uploaded ∧
    (stTrans ch pname ptext r tr).result.joints_points_exist = r.joints_points_exist ∧
    (stTrans ch pname ptext r tr).result.program_uploaded = r.program_uploaded := by
  simp only [stTrans, step]
  (repeat' split) <;> simp

/-- `stJoints` never touches the trans flags or `program_uploaded`. -/
theorem stJoints_fields (ch : Channel) (pname ptext : String) (r : UploadResult)
    (tr : List Cmd) :
    (stJoints ch pname ptext r tr).result.trans_points_uploaded = r.trans_points_uploaded ∧
    (stJoints ch pname ptext r tr).result.trans_points_exist = r.trans_points_exist ∧
    (stJoints ch pname ptext r tr).result.program_uploaded = r.program_uploaded := by
  simp only [stJoints, step]
  (repeat' split) <;> simp

/-- `stPrime` never touches the trans/joints flags or `program_uploaded`. -/
theorem stPrime_fields (ch : Channel) (pname : String) (openp : Bool)
    (r : UploadResult) (tr : List Cmd) :
    (stPrime ch pname openp r tr).result.trans_points_uploaded = r.trans_points_uploaded ∧
    (stPrime ch pname openp r tr).result.trans_points_exist = r.trans_points_exist ∧
    (stPrime ch pname openp r tr).result.joints_points_uploaded = r.joints_points_uploaded ∧
    (stPrime ch pname openp r tr).result.joints_points_exist = r.joints_points_exist ∧
    (stPrime ch pname openp r tr).result.program_uploaded = r.program_uploaded := by
  simp only [stPrime, step]
  (repeat' split) <;> simp

/-- On an input whose trans flags are both false, `stTrans` leaves the two
trans flags equal (both set on success, both left false otherwise). -/
theorem stTrans_eq (ch : Channel) (pname ptext : String) (r : UploadResult)
    (tr : List Cmd) (hu : r.trans_points_uploaded = false)
    (he : r.trans_points_exist = false) :
    (stTrans ch pname ptext r tr).result.trans_points_exist =
      (stTrans ch pname ptext r tr).result.trans_points_uploaded := by
  simp only [stTrans, step]
  (repeat' split) <;> simp [hu, he]

/-- On an input whose joints flags are both false, `stJoints` leaves the
two joints flags equal. -/
theorem stJoints_eq (ch : Channel) (pname ptext : String) (r : UploadResult)
    (tr : List Cmd) (hu : r.joints_points_uploaded = false)
    (he : r.joints_points_exist = false) :
    (stJoints ch pname ptext r tr).result.joints_points_exist =
      (stJoints ch pname ptext r tr).result.joints_points_uploaded := by
  simp only [stJoints, step]
  (repeat' split) <;> simp [hu, he]

theorem andThen_trace {s : StageOut} {f : UploadResult → List Cmd → StageOut}
    {base : List Cmd} {P : Cmd → Prop}
    (hs : ∃ new0, s.trace = base ++ new0 ∧ ∀ c ∈ new0, P c)
    (hf : ∀ r tr, ∃ new, (f r tr).trace = tr ++ new ∧ ∀ c ∈ new, P c) :
    ∃ new, (andThen s f).trace = base ++ new ∧ ∀ c ∈ new, P c := by
  obtain ⟨n0, h0, hp0⟩ := hs
  by_cases hd : s.done = true
  · rw [andThen_done f hd]; exact ⟨n0, h0, hp0⟩
  · rw [andThen_not_done f (by simpa using hd)]
    obtain ⟨n1, h1, hp1⟩ := hf s.result s.trace
    refine ⟨n0 ++ n1, ?_, ?_⟩
    · rw [h1, h0, List.append_assoc]
    · intro c hc
      rcases List.mem_append.mp hc with h | h
      · exact hp0 c h
      · exact hp1 c h

theorem stGetStatuses_trace (ch : Channel) (r : UploadResult) (tr : List Cmd) :
    ∃ new, (stGetStatuses ch r tr).trace = tr ++ new ∧
      ∀ c ∈ new, c = Cmd.getPCStatus ∨ c = Cmd.getRcpStatus := by
  simp only [stGetStatuses, step]
  (repeat' split) <;> first
    | (refine ⟨[Cmd.getPCStatus], ?_, ?_⟩ <;> (simp; done))
    | (refine ⟨[Cmd.getPCStatus, Cmd.getRcpStatus], ?_, ?_⟩ <;> (simp; done))

theorem pcConflict_trace (ch : Channel) (pname : String) (r : UploadResult) :
    ∀ lst tr, ∃ new, (pcConflict ch pname r lst tr).trace = tr ++ new ∧
      ∀ c ∈ new, (∃ m, c = Cmd.pcAbort m) ∨ (∃ m, c = Cmd.pcKill m) := by
  intro lst
  induction lst with
  | nil => intro tr; exact ⟨[], by simp [pcConflict], by simp⟩
  | cons e rest ih =>
    intro tr
    simp only [pcConflict, step]
    (repeat' split) <;> first
      | exact ih tr
      | (refine ⟨[Cmd.pcAbort (1 <<< (e.thread_num - 1))], ?_, ?_⟩ <;> (simp; done))
      | (refine ⟨[Cmd.pcAbort (1 <<< (e.thread_num - 1)),
          Cmd.pcKill (1 <<< (e.thread_num - 1))], ?_, ?_⟩ <;> (simp; done))
      | (refine ⟨[Cmd.pcKill (1 <<< (e.thread_num - 1))], ?_, ?_⟩ <;> (simp; done))

theorem rcpConflict_trace (ch : Channel) (pname : String) (st : RcpStatus)
    (r : UploadResult) (tr : List Cmd) :
    ∃ new, (rcpConflict ch pname st r tr).trace = tr ++ new ∧
      ∀ c ∈ new, c = Cmd.rcpHold ∨ c = Cmd.killRcp := by
  simp only [rcpConflict, step]
  (repeat' split) <;> first
    | (refine ⟨[], ?_, ?_⟩ <;> (simp; done))
    | (refine ⟨[Cmd.rcpHold], ?_, ?_⟩ <;> (simp; done))
    | (refine ⟨[Cmd.rcpHold, Cmd.killRcp], ?_, ?_⟩ <;> (simp; done))
    | (refine ⟨[Cmd.killRcp], ?_, ?_⟩ <;> (simp; done))

theorem stMain_trace (ch : Channel) (pname ptext : String) (r : UploadResult)
    (tr : List Cmd) :
    ∃ new, (stMain ch pname ptext r tr).trace = tr ++ new ∧
      ∀ c ∈ new, ∃ s, c = Cmd.uploadBytes s := by
  simp only [stMain, step]
  cases hfs : find_section ptext pname "program" with
  | error e => exact ⟨[], by simp, by simp⟩
  | ok pg =>
    by_cases hpg : pg = ""
    · refine ⟨[], ?_, ?_⟩ <;> simp [hpg]
    · by_cases hv : is_pg_valid pg = true
      · cases hf : ch.failAt tr.length with
        | some msg => refine ⟨[Cmd.uploadBytes pg], ?_, ?_⟩ <;> simp [hpg, hv, hf]
        | none => refine ⟨[Cmd.uploadBytes pg], ?_, ?_⟩ <;> simp [hpg, hv, hf]
      · refine ⟨[], ?_, ?_⟩ <;> simp [hpg, hv]

theorem stTrans_trace (ch : Channel) (pname ptext : String) (r : UploadResult)
    (tr : List Cmd) :
    ∃ new, (stTrans ch pname ptext r tr).trace = tr ++ new ∧
      ∀ c ∈ new, ∃ s, c = Cmd.uploadBytes s := by
  simp only [stTrans, step]
  cases hfs : find_section ptext pname "trans" with
  | error e => exact ⟨[], by simp, by simp⟩
  | ok pg =>
    by_cases hpg : pg = ""
    · refine ⟨[], ?_, ?_⟩ <;> simp [hpg]
    · 
      cases hf : ch.failAt tr.length with
        | some msg => refine ⟨[Cmd.uploadBytes pg], ?_, ?_⟩ <;> simp [hpg, hf]
        | none => refine ⟨[Cmd.uploadBytes pg], ?_, ?_⟩ <;> simp [hpg, hf]

theorem stJoints_trace (ch : Channel) (pname ptext : String) (r : UploadResult)
    (tr : List Cmd) :
    ∃ new, (stJoints ch pname ptext r tr).trace = tr ++ new ∧
      ∀ c ∈ new, ∃ s, c = Cmd.uploadBytes s := by
  simp only [stJoints, step]
  cases hfs : find_section ptext pname "joints" with
  | error e => exact ⟨[], by simp, by simp⟩
  | ok pg =>
    by_cases hpg : pg = ""
    · refine ⟨[], ?_, ?_⟩ <;> simp [hpg]
    · 
      cases hf : ch.failAt tr.length with
        | some msg => refine ⟨[Cmd.uploadBytes pg], ?_, ?_⟩ <;> simp [hpg, hf]
        | none => refine ⟨[Cmd.uploadBytes pg], ?_, ?_⟩ <;> simp [hpg, hf]

theorem stPrime_trace (ch : Channel) (pname : String) (openp : Bool)
    (r : UploadResult) (tr : List Cmd) :
    ∃ new, (stPrime ch pname openp r tr).trace = tr ++ new ∧
      ∀ c ∈ new, c = Cmd.rcpPrime pname := by
  simp only [stPrime, step]
  (repeat' split) <;> first
    | (refine ⟨[], ?_, ?_⟩ <;> (simp; done))
    | (refine ⟨[Cmd.rcpPrime pname], ?_, ?_⟩ <;> (simp; done))

/-- Everything issued after the auxiliary-thread conflict loop is neither
a thread abort nor a thread kill. -/
theorem uploadAfterPC_trace (ch : Channel) (pname ptext : String)
    (openp : Bool) (s2 : StageOut) :
    ∃ new, (uploadAfterPC ch pname ptext openp s2).trace = s2.trace ++ new ∧
      ∀ c ∈ new, notPcCmd c := by
  rw [uploadAfterPC]
  apply andThen_trace
  · apply andThen_trace
    · apply andThen_trace
      · apply andThen_trace
        · refine @andThen_trace _ _ s2.trace _ ⟨[], by simp, by simp⟩ ?_
          intro r tr
          obtain ⟨new, h1, h2⟩ := rcpConflict_trace ch pname ch.rcpStatus r tr
          exact ⟨new, h1, fun c hc => by
            rcases h2 c hc with h | h <;> subst h <;> exact ⟨fun m => by simp, fun m => by simp⟩⟩
        · intro r tr
          obtain ⟨new, h1, h2⟩ := stMain_trace ch pname ptext r tr
          exact ⟨new, h1, fun c hc => by
            obtain ⟨s, h⟩ := h2 c hc
            subst h
            exact ⟨fun m => by simp, fun m => by simp⟩⟩
      · intro r tr
        obtain ⟨new, h1, h2⟩ := stTrans_trace ch pname ptext r tr
        exact ⟨new, h1, fun c hc => by
          obtain ⟨s, h⟩ := h2 c hc
          subst h
          exact ⟨fun m => by simp, fun m => by simp⟩⟩
    · intro r tr
      obtain ⟨new, h1, h2⟩ := stJoints_trace ch pname ptext r tr
      exact ⟨new, h1, fun c hc => by
        obtain ⟨s, h⟩ := h2 c hc
        subst h
        exact ⟨fun m => by simp, fun m => by simp⟩⟩
  · intro r tr
    obtain ⟨new, h1, h2⟩ := stPrime_trace ch pname openp r tr
    exact ⟨new, h1, fun c hc => by
      have h := h2 c hc
      subst h
      exact ⟨fun m => by simp, fun m => by simp⟩⟩

/-! ## Exact computations of the stages -/

theorem stGetStatuses_nofail (ch : Channel) (r : UploadResult) (tr : List Cmd)
    (hnf : ∀ n, ch.failAt n = none) :
    stGetStatuses ch r tr =
      ⟨r, tr ++ [Cmd.getPCStatus, Cmd.getRcpStatus], false⟩ := by
  simp [stGetStatuses, step, hnf]

theorem pcConflict_nil (ch : Channel) (pname : String) (r : UploadResult)
    (tr : List Cmd) : pcConflict ch pname r [] tr = ⟨r, tr, false⟩ := rfl

theorem pcConflict_skip (ch : Channel) (pname : String) (r : UploadResult) :
    ∀ pre, (∀ x ∈ pre, (x.is_exist && (pyLower x.name == pyLower pname)) = false) →
      ∀ lst tr, pcConflict ch pname r (pre ++ lst) tr = pcConflict ch pname r lst tr := by
  intro pre
  induction pre with
  | nil => intro _ lst tr; rfl
  | cons x pre ih =>
    intro h lst tr
    have hx : (x.is_exist && (pyLower x.name == pyLower pname)) = false :=
      h x (List.mem_cons_self x pre)
    rw [List.cons_append, pcConflict, if_neg (by simp [hx])]
    exact ih (fun y hy => h y (List.mem_cons_of_mem x hy)) lst tr

theorem pcConflict_hit_nofail (ch : Channel) (pname : String) (r : UploadResult)
    (e : PCStatus) (post : List PCStatus) (tr : List Cmd)
    (he : (e.is_exist && (pyLower e.name == pyLower pname)) = true)
    (hnf : ∀ n, ch.failAt n = none) :
    pcConflict ch pname r (e :: post) tr =
      ⟨r, tr ++ (if e.is_running then
          [Cmd.pcAbort (1 <<< (e.thread_num - 1)), Cmd.pcKill (1 <<< (e.thread_num - 1))]
        else [Cmd.pcKill (1 <<< (e.thread_num - 1))]), false⟩ := by
  rw [pcConflict, if_pos he]
  by_cases hr : e.is_running = true
  · simp [hr, step, hnf]
  · simp [hr, step, hnf]

theorem rcpConflict_miss (ch : Channel) (pname : String) (st : RcpStatus)
    (r : UploadResult) (tr : List Cmd)
    (hm : (st.is_exist && (pyLower st.name == pyLower pname)) = false) :
    rcpConflict ch pname st r tr = ⟨r, tr, false⟩ := by
  rw [rcpConflict, if_neg (by simp [hm])]

theorem rcpConflict_hit_nofail (ch : Channel) (pname : String) (st : RcpStatus)
    (r : UploadResult) (tr : List Cmd)
    (hm : (st.is_exist && (pyLower st.name == pyLower pname)) = true)
    (hnf : ∀ n, ch.failAt n = none) :
    rcpConflict ch pname st r tr =
      ⟨r, tr ++ (if st.is_running then [Cmd.rcpHold, Cmd.killRcp] else [Cmd.killRcp]),
        false⟩ := by
  rw [rcpConflict, if_pos hm]
  by_cases hr : st.is_running = true
  · simp [hr, step, hnf]
  · simp [hr, step, hnf]

theorem stMain_notfound (ch : Channel) (pname ptext : String) (r : UploadResult)
    (tr : List Cmd) (hpg : find_section ptext pname "program" = Except.ok "") :
    stMain ch pname ptext r tr =
      ⟨{ r with error_message := some (notFoundMsg pname) }, tr, true⟩ := by
  rw [stMain, hpg]
  simp

theorem stMain_invalid (ch : Channel) (pname ptext : String) (r : UploadResult)
    (tr : List Cmd) (pg : String)
    (hpg : find_section ptext pname "program" = Except.ok pg) (hne : pg ≠ "")
    (hv : is_pg_valid pg = false) :
    stMain ch pname ptext r tr =
      ⟨{ r with error_message := some (notValidMsg pname) }, tr, true⟩ := by
  rw [stMain, hpg]
  simp [hne, hv]

theorem stMain_ok (ch : Channel) (pname ptext : String) (r : UploadResult)
    (tr : List Cmd) (pg : String)
    (hpg : find_section ptext pname "program" = Except.ok pg) (hne : pg ≠ "")
    (hv : is_pg_valid pg = true) (hf : ch.failAt tr.length = none) :
    stMain ch pname ptext r tr =
      ⟨{ r with program_uploaded := true }, tr ++ [Cmd.uploadBytes pg], false⟩ := by
  rw [stMain, hpg]
  simp [hne, hv, step, hf]

theorem stTrans_none (ch : Channel) (pname ptext : String) (r : UploadResult)
    (tr : List Cmd) (hts : find_section ptext pname "trans" = Except.ok "") :
    stTrans ch pname ptext r tr =
      ⟨{ r with trans_points_exist := false }, tr, false⟩ := by
  rw [stTrans, hts]
  simp

theorem stTrans_ok (ch : Channel) (pname ptext : String) (r : UploadResult)
    (tr : List Cmd) (ts : String)
    (hts : find_section ptext pname "trans" = Except.ok ts) (hne : ts ≠ "")
    (hf : ch.failAt tr.length = none) :
    stTrans ch pname ptext r tr =
      ⟨{ r with trans_points_uploaded := true, trans_points_exist := true },
        tr ++ [Cmd.uploadBytes ts], false⟩ := by
  rw [stTrans, hts]
  simp [hne, step, hf]

theorem stJoints_none (ch : Channel) (pname ptext : String) (r : UploadResult)
    (tr : List Cmd) (hjs : find_section ptext pname "joints" = Except.ok "") :
    stJoints ch pname ptext r tr =
      ⟨{ r with joints_points_exist := false }, tr, false⟩ := by
  rw [stJoints, hjs]
  simp

theorem stJoints_ok (ch : Channel) (pname ptext : String) (r : UploadResult)
    (tr : List Cmd) (js : String)
    (hjs : find_section ptext pname "joints" = Except.ok js) (hne : js ≠ "")
    (hf : ch.failAt tr.length = none) :
    stJoints ch pname ptext r tr =
      ⟨{ r with joints_points_uploaded := true, joints_points_exist := true },
        tr ++ [Cmd.uploadBytes js], false⟩ := by
  rw [stJoints, hjs]
  simp [hne, step, hf]

/-- Under a never-failing channel, `stJoints` never terminates the call. -/
theorem stJoints_nofail_not_done (ch : Channel) (pname ptext : String)
    (r : UploadResult) (tr : List Cmd) (hnf : ∀ n, ch.failAt n = none) :
    (stJoints ch pname ptext r tr).done = false := by
  by_cases hjs : findSectionG jointsOpen ptext = ""
  · rw [stJoints_none ch pname ptext r tr (by rw [find_section_joints, hjs])]
  · rw [stJoints_ok ch pname ptext r tr _ (find_section_joints ptext pname) hjs (hnf _)]

/-- Under a never-failing channel, `stPrime` never terminates the call. -/
theorem stPrime_nofail_not_done (ch : Channel) (pname : String) (openp : Bool)
    (r : UploadResult) (tr : List Cmd) (hnf : ∀ n, ch.failAt n = none) :
    (stPrime ch pname openp r tr).done = false := by
  by_cases ho : openp = true
  · simp [stPrime, ho, step, hnf]
  · simp [stPrime, ho]

/-- A field unchanged by a stage is unchanged through `andThen`. -/
theorem andThen_keeps {s : StageOut} {f : UploadResult → List Cmd → StageOut}
    (g : UploadResult → Bool) (hf : ∀ r tr, g (f r tr).result = g r) :
    g (andThen s f).result = g s.result := by
  by_cases hd : s.done = true
  · rw [andThen_done _ hd]
  · rw [andThen_not_done _ (by simpa using hd)]
    exact hf s.result s.trace

/-- After the stages that follow the thread-conflict loop, the two trans
flags are equal whenever they were both false on entry. -/
theorem uploadAfterPC_transEq (ch : Channel) (pname ptext : String)
    (openp : Bool) (s2 : StageOut)
    (h2u : s2.result.trans_points_uploaded = false)
    (h2e : s2.result.trans_points_exist = false) :
    (uploadAfterPC ch pname ptext openp s2).result.trans_points_exist =
      (uploadAfterPC ch pname ptext openp s2).result.trans_points_uploaded := by
  rw [uploadAfterPC]
  set s3 := andThen s2 (fun r tr => rcpConflict ch pname ch.rcpStatus r tr) with hs3
  set s4 := andThen s3 (fun r tr => stMain ch pname ptext r tr) with hs4
  set s5 := andThen s4 (fun r tr => stTrans ch pname ptext r tr) with hs5
  set s6 := andThen s5 (fun r tr => stJoints ch pname ptext r tr) with hs6
  have h3u : s3.result.trans_points_uploaded = false := by
    rw [hs3, andThen_keeps (fun a => a.trans_points_uploaded)
      (fun r tr => (resultShape_flags (rcpConflict_shape ch pname ch.rcpStatus r tr)).2.1)]
    exact h2u
  have h3e : s3.result.trans_points_exist = false := by
    rw [hs3, andThen_keeps (fun a => a.trans_points_exist)
      (fun r tr => (resultShape_flags (rcpConflict_shape ch pname ch.rcpStatus r tr)).2.2.1)]
    exact h2e
  have h4u : s4.result.trans_points_uploaded = false := by
    rw [hs4, andThen_keeps (fun a => a.trans_points_uploaded)
      (fun r tr => (stMain_fields ch pname ptext r tr).1)]
    exact h3u
  have h4e : s4.result.trans_points_exist = false := by
    rw [hs4, andThen_keeps (fun a => a.trans_points_exist)
      (fun r tr => (stMain_fields ch pname ptext r tr).2.1)]
    exact h3e
  have h5 : s5.result.trans_points_exist = s5.result.trans_points_uploaded := by
    rw [hs5]
    by_cases hd : s4.done = true
    · rw [andThen_done _ hd, h4u, h4e]
    · rw [andThen_not_done _ (by simpa using hd)]
      exact stTrans_eq ch pname ptext s4.result s4.trace h4u h4e
  have h6 : s6.result.trans_points_exist = s6.result.trans_points_uploaded := by
    rw [hs6, andThen_keeps (fun a => a.trans_points_exist)
        (fun r tr => (stJoints_fields ch pname ptext r tr).2.1),
      andThen_keeps (fun a => a.trans_points_uploaded)
        (fun r tr => (stJoints_fields ch pname ptext r tr).1)]
    exact h5
  rw [andThen_keeps (fun a => a.trans_points_exist)
      (fun r tr => (stPrime_fields ch pname openp r tr).2.1),
    andThen_keeps (fun a => a.trans_points_uploaded)
      (fun r tr => (stPrime_fields ch pname openp r tr).1)]
  exact h6

/-- After the stages that follow the thread-conflict loop, the two joints
flags are equal whenever they were both false on entry. -/
theorem uploadAfterPC_jointsEq (ch : Channel) (pname ptext : String)
    (openp : Bool) (s2 : StageOut)
    (h2u : s2.result.joints_points_uploaded = false)
    (h2e : s2.result.joints_points_exist = false) :
    (uploadAfterPC ch pname ptext openp s2).result.joints_points_exist =
      (uploadAfterPC ch pname ptext openp s2).result.joints_points_uploaded := by
  rw [uploadAfterPC]
  set s3 := andThen s2 (fun r tr => rcpConflict ch pname ch.rcpStatus r tr) with hs3
  set s4 := andThen s3 (fun r tr => stMain ch pname ptext r tr) with hs4
  set s5 := andThen s4 (fun r tr => stTrans ch pname ptext r tr) with hs5
  set s6 := andThen s5 (fun r tr => stJoints ch pname ptext r tr) with hs6
  have h3u : s3.result.joints_points_uploaded = false := by
    rw [hs3, andThen_keeps (fun a => a.joints_points_uploaded)
      (fun r tr => (resultShape_flags (rcpConflict_shape ch pname ch.rcpStatus r tr)).2.2.2.1)]
    exact h2u
  have h3e : s3.result.joints_points_exist = false := by
    rw [hs3, andThen_keeps (fun a => a.joints_points_exist)
      (fun r tr => (resultShape_flags (rcpConflict_shape ch pname ch.rcpStatus r tr)).2.2.2.2.1)]
    exact h2e
  have h4u : s4.result.joints_points_uploaded = false := by
    rw [hs4, andThen_keeps (fun a => a.joints_points_uploaded)
      (fun r tr => (stMain_fields ch pname ptext r tr).2.2.1)]
    exact h3u
  have h4e : s4.result.joints_points_exist = false := by
    rw [hs4, andThen_keeps (fun a => a.joints_points_exist)
      (fun r tr => (stMain_fields ch pname ptext r tr).2.2.2)]
    exact h3e
  have h5u : s5.result.joints_points_uploaded = false := by
    rw [hs5, andThen_keeps (fun a => a.joints_points_uploaded)
      (fun r tr => (stTrans_fields ch pname ptext r tr).1)]
    exact h4u
  have h5e : s5.result.joints_points_exist = false := by
    rw [hs5, andThen_keeps (fun a => a.joints_points_exist)
      (fun r tr => (stTrans_fields ch pname ptext r tr).2.1)]
    exact h4e
  have h6 : s6.result.joints_points_exist = s6.result.joints_points_uploaded := by
    rw [hs6]
    by_cases hd : s5.done = true
    · rw [andThen_done _ hd, h5u, h5e]
    · rw [andThen_not_done _ (by simpa using hd)]
      exact stJoints_eq ch pname ptext s5.result s5.trace h5u h5e
  rw [andThen_keeps (fun a => a.joints_points_exist)
      (fun r tr => (stPrime_fields ch pname openp r tr).2.2.2.1),
    andThen_keeps (fun a => a.joints_points_uploaded)
      (fun r tr => (stPrime_fields ch pname openp r tr).2.2.1)]
  exact h6

/-- The result of the two stages preceding the section uploads is the
fresh record, up to an error message. -/
theorem preMain_shape (ch : Channel) (pname : String) :
    resultShape (andThen (stGetStatuses ch {} [])
      (fun r tr => pcConflict ch pname r ch.pcStatuses tr)).result {} :=
  andThen_shape (stGetStatuses_shape ch {} [])
    (fun r' tr => pcConflict_shape ch pname r' ch.pcStatuses tr)

/-- In every upload call, the two trans flags of the returned record are
equal. -/
theorem upload_trans_eq (ch : Channel) (pname ptext : String) (openp : Bool) :
    (upload_program ch pname ptext openp).1.trans_points_exist =
      (upload_program ch pname ptext openp).1.trans_points_uploaded := by
  rw [upload_program]
  apply uploadAfterPC_transEq
  · exact ((resultShape_flags (preMain_shape ch pname)).2.1).trans rfl
  · exact ((resultShape_flags (preMain_shape ch pname)).2.2.1).trans rfl

/-- In every upload call, the two joints flags of the returned record are
equal. -/
theorem upload_joints_eq (ch : Channel) (pname ptext : String) (openp : Bool) :
    (upload_program ch pname ptext openp).1.joints_points_exist =
      (upload_program ch pname ptext openp).1.joints_points_uploaded := by
  rw [upload_program]
  apply uploadAfterPC_jointsEq
  · exact ((resultShape_flags (preMain_shape ch pname)).2.2.2.1).trans rfl
  · exact ((resultShape_flags (preMain_shape ch pname)).2.2.2.2.1).trans rfl

/-- Under a never-failing channel the thread-conflict loop always
completes, leaving the result unchanged. -/
theorem pcConflict_nofail_any (ch : Channel) (pname : String) (r : UploadResult)
    (hnf : ∀ n, ch.failAt n = none) :
    ∀ lst tr, ∃ new, pcConflict ch pname r lst tr = ⟨r, tr ++ new, false⟩ := by
  intro lst
  induction lst with
  | nil => intro tr; exact ⟨[], by simp [pcConflict_nil]⟩
  | cons e rest ih =>
    intro tr
    by_cases hm : (e.is_exist && (pyLower e.name == pyLower pname)) = true
    · exact ⟨_, pcConflict_hit_nofail ch pname r e rest tr hm hnf⟩
    · rw [pcConflict, if_neg hm]
      exact ih tr

/-- Under a never-failing channel the continuous-path conflict step always
completes, leaving the result unchanged. -/
theorem rcpConflict_nofail_any (ch : Channel) (pname : String) (st : RcpStatus)
    (r : UploadResult) (tr : List Cmd) (hnf : ∀ n, ch.failAt n = none) :
    ∃ new, rcpConflict ch pname st r tr = ⟨r, tr ++ new, false⟩ := by
  by_cases hm : (st.is_exist && (pyLower st.name == pyLower pname)) = true
  · exact ⟨_, rcpConflict_hit_nofail ch pname st r tr hm hnf⟩
  · exact ⟨[], by simp [rcpConflict_miss ch pname st r tr (by simpa using hm)]⟩

/-- The deletion loop deletes names in list order and stops at the first
channel failure: it performs exactly the first `m` deletions, where all
deletions succeed (`m` = all names) or the `m`-th raised after `m - 1`
successes. -/
theorem deleteLoop_spec (ch : Channel) :
    ∀ names tr, ∃ m, m ≤ names.length ∧
      (deleteLoop ch names tr).1 = tr ++ (names.take m).map Cmd.pgDelete ∧
      ((deleteLoop ch names tr).2 = none → m = names.length) ∧
      (∀ e, (deleteLoop ch names tr).2 = some e →
        ∃ k, m = k + 1 ∧ ch.failAt (tr.length + k) = some e ∧
          ∀ j < k, ch.failAt (tr.length + j) = none) := by
  intro names
  induction names with
  | nil =>
    intro tr
    refine ⟨0, by simp, by simp [deleteLoop], by simp [deleteLoop], ?_⟩
    intro e he
    rw [show (deleteLoop ch [] tr).2 = none from rfl] at he
    cases he
  | cons n rest ih =>
    intro tr
    cases hf : ch.failAt tr.length with
    | some e0 =>
      have hred : deleteLoop ch (n :: rest) tr = (tr ++ [Cmd.pgDelete n], some e0) := by
        simp [deleteLoop, step, hf]
      refine ⟨1, by simp, ?_, ?_, ?_⟩
      · rw [hred]; simp
      · rw [hred]; intro h; cases h
      · intro e he
        rw [hred] at he
        have he0 : e0 = e := by injection he
        refine ⟨0, rfl, ?_, ?_⟩
        · rw [Nat.add_zero, hf, he0]
        · intro j hj; exact absurd hj (by omega)
    | none =>
      obtain ⟨m, hle, htr, hnone, hsome⟩ := ih (tr ++ [Cmd.pgDelete n])
      have hred : deleteLoop ch (n :: rest) tr =
          deleteLoop ch rest (tr ++ [Cmd.pgDelete n]) := by
        simp [deleteLoop, step, hf]
      refine ⟨m + 1, by simp; omega, ?_, ?_, ?_⟩
      · rw [hred, htr, List.take_succ_cons]
        simp
      · intro h2
        rw [hred] at h2
        have := hnone h2
        simp [this]
      · intro e he
        rw [hred] at he
        obtain ⟨k, hk, hfk, hprev⟩ := hsome e he
        refine ⟨k + 1, by omega, ?_, ?_⟩
        · have harith : tr.length + (k + 1) = (tr ++ [Cmd.pgDelete n]).length + k := by
            simp
            omega
          rw [harith]
          exact hfk
        · intro j hj
          cases j with
          | zero => simpa using hf
          | succ j2 =>
            have harith : tr.length + (j2 + 1) = (tr ++ [Cmd.pgDelete n]).length + j2 := by
              simp
              omega
            rw [harith]
            exact hprev j2 (by omega)

/-- Under a never-failing channel, `stJoints` completes and preserves the
trans flags. -/
theorem stJoints_nofail_keep (ch : Channel) (pname ptext : String)
    (r : UploadResult) (tr : List Cmd) (hnf : ∀ n, ch.failAt n = none) :
    ∃ r2 tr2, stJoints ch pname ptext r tr = ⟨r2, tr2, false⟩ ∧
      r2.trans_points_uploaded = r.trans_points_uploaded ∧
      r2.trans_points_exist = r.trans_points_exist := by
  by_cases hjs : findSectionG jointsOpen ptext = ""
  · rw [stJoints_none ch pname ptext r tr (by rw [find_section_joints, hjs])]
    exact ⟨_, _, rfl, rfl, rfl⟩
  · rw [stJoints_ok ch pname ptext r tr _ (find_section_joints ptext pname) hjs (hnf _)]
    exact ⟨_, _, rfl, rfl, rfl⟩

/-- Under a never-failing channel, `stPrime` completes and preserves the
trans flags. -/
theorem stPrime_nofail_keep (ch : Channel) (pname : String) (openp : Bool)
    (r : UploadResult) (tr : List Cmd) (hnf : ∀ n, ch.failAt n = none) :
    ∃ r2 tr2, stPrime ch pname openp r tr = ⟨r2, tr2, false⟩ ∧
      r2.trans_points_uploaded = r.trans_points_uploaded ∧
      r2.trans_points_exist = r.trans_points_exist := by
  by_cases ho : openp = true
  · refine ⟨{ r with program_loaded := true }, tr ++ [Cmd.rcpPrime pname], ?_, rfl, rfl⟩
    simp [stPrime, ho, step, hnf]
  · exact ⟨r, tr, by simp [stPrime, ho], rfl, rfl⟩

/-! ## The claims -/

/-- Claim C5: `isValid(text)` returns true if and only if every line that,
after trimming, starts with `SETCONDW` passes all three checks (two
whitespace tokens with `=` in the second, all-digit parameter name before
the first `=`, and non-empty float-parsable comma-separated values after
it).  In particular the right-hand side is vacuously true, and `isValid`
returns true, for any text containing no `SETCONDW` lines. -/
theorem claim_C5 (text : String) :
    is_pg_valid text = true ↔
      ∀ l ∈ pySplitNl text, pyStartsWith (pyStrip l) "SETCONDW" = true →
        specSetcondwLineOk (pyStrip l) := by
  rw [is_pg_valid, isPgValidGo_iff]
  constructor
  · intro h l hl hsw
    exact (checkSetcondw_iff _).mp (h l hl hsw)
  · intro h l hl hsw
    exact (checkSetcondw_iff _).mpr (h l hl hsw)

/-- The not-found cases of the section scan, for an arbitrary opening
predicate: no opening at all, or no `.END` from the first opening on. -/
theorem findSectionG_empty_cases (p : String → Bool) (content : String)
    (lines : List String) (hsplit : pySplitNl content = lines) :
    ((∀ l ∈ lines, p l = false) → findSectionG p content = "") ∧
    (∀ A op B, lines = A ++ op :: B → (∀ l ∈ A, p l = false) →
      (∀ l ∈ op :: B, pyStartsWith l ".END" = false) →
      findSectionG p content = "") := by
  constructor
  · intro hno
    exact findSectionG_of_none p content
      (genLoop_noopen_none p _ (fun l hl => hno l (hsplit ▸ hl)) 0)
  · intro A op B hlines hA hend
    apply findSectionG_of_none p content
    rw [hsplit, hlines, genLoop_skip_noopen p A hA]
    exact genLoop_noend_none p _ hend _ _

/-- Claim C7: for each of the three section types, when no matching
opening delimiter occurs, or one occurs but no `.END` line follows it
before the end of the text, `extractSection` returns the empty string and
does not raise; in particular empty content yields the empty string. -/
theorem claim_C7 (content pname sty : String) (lines : List String)
    (hsty : sty = "program" ∨ sty = "trans" ∨ sty = "joints")
    (hsplit : pySplitNl content = lines) :
    ((∀ l ∈ lines, openPred pname sty l = false) →
      find_section content pname sty = Except.ok "") ∧
    (∀ A op B, lines = A ++ op :: B →
      (∀ l ∈ A, openPred pname sty l = false) →
      openPred pname sty op = true →
      (∀ l ∈ op :: B, pyStartsWith l ".END" = false) →
      find_section content pname sty = Except.ok "") ∧
    find_section "" pname sty = Except.ok "" := by
  have hempty : pySplitNl "" = [""] := rfl
  rcases hsty with h | h | h <;> subst h
  · have hop : ∀ l, openPred pname "program" l = progOpen pname l := fun l => rfl
    have hE := findSectionG_empty_cases (progOpen pname) content lines hsplit
    refine ⟨?_, ?_, ?_⟩
    · intro hno
      rw [find_section_program, hE.1 (fun l hl => (hop l) ▸ hno l hl)]
    · intro A op B hlines hA hopx hend
      rw [find_section_program,
        hE.2 A op B hlines (fun l hl => (hop l) ▸ hA l hl) hend]
    · rw [find_section_program,
        (findSectionG_empty_cases (progOpen pname) "" [""] hempty).1 ?_]
      intro l hl
      have hl2 : l = "" := by simpa using hl
      subst hl2
      rw [progOpen, pyStartsWith, progPrefix_data]
      rfl
  · have hop : ∀ l, openPred pname "trans" l = transOpen l := fun l => rfl
    have hE := findSectionG_empty_cases transOpen content lines hsplit
    refine ⟨?_, ?_, ?_⟩
    · intro hno
      rw [find_section_trans, hE.1 (fun l hl => (hop l) ▸ hno l hl)]
    · intro A op B hlines hA hopx hend
      rw [find_section_trans,
        hE.2 A op B hlines (fun l hl => (hop l) ▸ hA l hl) hend]
    · rw [find_section_trans,
        (findSectionG_empty_cases transOpen "" [""] hempty).1 ?_]
      intro l hl
      have hl2 : l = "" := by simpa using hl
      subst hl2
      rfl
  · have hop : ∀ l, openPred pname "joints" l = jointsOpen l := fun l => rfl
    have hE := findSectionG_empty_cases jointsOpen content lines hsplit
    refine ⟨?_, ?_, ?_⟩
    · intro hno
      rw [find_section_joints, hE.1 (fun l hl => (hop l) ▸ hno l hl)]
    · intro A op B hlines hA hopx hend
      rw [find_section_joints,
        hE.2 A op B hlines (fun l hl => (hop l) ▸ hA l hl) hend]
    · rw [find_section_joints,
        (findSectionG_empty_cases jointsOpen "" [""] hempty).1 ?_]
      intro l hl
      have hl2 : l = "" := by simpa using hl
      subst hl2
      rfl

/-- Claim C7 witness: applying claim C7 at a concrete input. -/
theorem claim_C7_witness : find_section "" "PG" "trans" = Except.ok "" :=
  (claim_C7 "" "PG" "trans" [""] (Or.inr (Or.inl rfl)) rfl).2.2

/-- Claim C2 counterexample: for each of the three section types, a
content string with two matching opening delimiters before the first
`.END` makes `extractSection` return the block starting at the *second*
matching line, not the block starting at the first such line — so the
first matching opening delimiter is not honored for any requested
section type. -/
theorem claim_C2_counterexample :
    (pySplitNl ".TRANS\n.TRANS\n.END" = [".TRANS", ".TRANS", ".END"] ∧
      transOpen ".TRANS" = true ∧
      find_section ".TRANS\n.TRANS\n.END" "P" "trans" = Except.ok ".TRANS\n.END" ∧
      find_section ".TRANS\n.TRANS\n.END" "P" "trans" ≠
        Except.ok ".TRANS\n.TRANS\n.END") ∧
    (progOpen "P" ".PROGRAM P(1)" = true ∧ progOpen "P" ".PROGRAM P(2)" = true ∧
      find_section ".PROGRAM P(1)\n.PROGRAM P(2)\n.END" "P" "program" =
        Except.ok ".PROGRAM P(2)\n.END" ∧
      find_section ".PROGRAM P(1)\n.PROGRAM P(2)\n.END" "P" "program" ≠
        Except.ok ".PROGRAM P(1)\n.PROGRAM P(2)\n.END") ∧
    (jointsOpen ".JOINTS" = true ∧
      find_section ".JOINTS\n.JOINTS\n.END" "P" "joints" = Except.ok ".JOINTS\n.END" ∧
      find_section ".JOINTS\n.JOINTS\n.END" "P" "joints" ≠
        Except.ok ".JOINTS\n.JOINTS\n.END") :=
  ⟨⟨by decide, by decide, by decide, by decide⟩,
    ⟨by decide, by decide, by decide, by decide⟩,
    ⟨by decide, by decide, by decide⟩⟩

/-- Claim C2 (amended): for every requested section type (`program`,
`trans` or `joints`), matching opening delimiters occurring after the
closing `.END` line are ignored, but among the matching openings that
precede the first `.END` line following a match, the *last* one wins: the
returned section starts at the last matching opening delimiter before the
closing `.END` line, inclusive of that `.END` line. -/
theorem claim_C2 (content pname sty : String) (A B1 B2 C : List String)
    (b2 endl : String)
    (hsty : sty = "program" ∨ sty = "trans" ∨ sty = "joints")
    (hsplit : pySplitNl content = A ++ B1 ++ b2 :: B2 ++ endl :: C)
    (hA : ∀ l ∈ A, openPred pname sty l = false)
    (hB1 : ∀ l ∈ B1, pyStartsWith l ".END" = false)
    (hb2 : openPred pname sty b2 = true)
    (hB2o : ∀ l ∈ B2, openPred pname sty l = false)
    (hB2e : ∀ l ∈ B2, pyStartsWith l ".END" = false)
    (hend : pyStartsWith endl ".END" = true) :
    find_section content pname sty =
      Except.ok (pyJoinNl (b2 :: B2 ++ [endl])) := by
  rcases hsty with h | h | h <;> subst h
  · have hop : ∀ l, openPred pname "program" l = progOpen pname l := fun l => rfl
    rw [find_section_program content pname]
    exact congrArg Except.ok (findSectionG_spec (progOpen pname) content A B1 B2 C
      b2 endl hsplit (fun l hl => (hop l) ▸ hA l hl) hB1 ((hop b2) ▸ hb2)
      (progOpen_not_end ((hop b2) ▸ hb2)) (fun l hl => (hop l) ▸ hB2o l hl) hB2e
      hend (end_not_progOpen pname hend))
  · have hop : ∀ l, openPred pname "trans" l = transOpen l := fun l => rfl
    rw [find_section_trans content pname]
    exact congrArg Except.ok (findSectionG_spec transOpen content A B1 B2 C
      b2 endl hsplit (fun l hl => (hop l) ▸ hA l hl) hB1 ((hop b2) ▸ hb2)
      (transOpen_not_end ((hop b2) ▸ hb2)) (fun l hl => (hop l) ▸ hB2o l hl) hB2e
      hend (end_not_transOpen hend))
  · have hop : ∀ l, openPred pname "joints" l = jointsOpen l := fun l => rfl
    rw [find_section_joints content pname]
    exact congrArg Except.ok (findSectionG_spec jointsOpen content A B1 B2 C
      b2 endl hsplit (fun l hl => (hop l) ▸ hA l hl) hB1 ((hop b2) ▸ hb2)
      (jointsOpen_not_end ((hop b2) ▸ hb2)) (fun l hl => (hop l) ▸ hB2o l hl) hB2e
      hend (end_not_jointsOpen hend))

/-- Claim C2 witness: the amended claim applied to the `program`-type
counterexample input, with `B1 = [".PROGRAM P(1)"]` (the ignored earlier
opening) and the block starting at the second matching opening. -/
theorem claim_C2_witness :
    find_section ".PROGRAM P(1)\n.PROGRAM P(2)\n.END" "P" "program" =
      Except.ok (pyJoinNl [".PROGRAM P(2)", ".END"]) :=
  claim_C2 ".PROGRAM P(1)\n.PROGRAM P(2)\n.END" "P" "program"
    [] [".PROGRAM P(1)"] [] [] ".PROGRAM P(2)" ".END"
    (Or.inl rfl) (by decide) (by decide) (by decide) (by decide) (by decide)
    (by decide) (by decide)

/-- Claim C8: when the text contains a `.PROGRAM name(...) ... .END` block
(whose body neither re-opens the section nor contains an earlier `.END`),
`extractSection` returns exactly that block joined by newline, and the
extraction is idempotent: re-extracting from the result returns the same
block. -/
theorem claim_C8 (text pname : String) (A B C : List String)
    (opl endl : String)
    (hsplit : pySplitNl text = A ++ opl :: B ++ endl :: C)
    (hA : ∀ l ∈ A, progOpen pname l = false)
    (hop : progOpen pname opl = true)
    (hBo : ∀ l ∈ B, progOpen pname l = false)
    (hBe : ∀ l ∈ B, pyStartsWith l ".END" = false)
    (hend : pyStartsWith endl ".END" = true) :
    find_section text pname "program" =
      Except.ok (pyJoinNl (opl :: B ++ [endl])) ∧
    find_section (pyJoinNl (opl :: B ++ [endl])) pname "program" =
      Except.ok (pyJoinNl (opl :: B ++ [endl])) := by
  constructor
  · rw [find_section_program text pname]
    exact congrArg Except.ok (findSectionG_spec (progOpen pname) text A [] B C opl endl
      (by simpa using hsplit) hA (by simp) hop (progOpen_not_end hop) hBo hBe
      hend (end_not_progOpen pname hend))
  · have hnl : ∀ l ∈ opl :: B ++ [endl], ∀ a ∈ l.data, (a == '\n') = false := by
      intro l hl
      apply @mem_pySplitNl_no_nl text l
      rw [hsplit]
      rcases List.mem_cons.mp hl with h | h
      · subst h; simp
      · rcases List.mem_append.mp h with h | h
        · simp [h]
        · have h2 : l = endl := by simpa using h
          subst h2; simp
    have hsp2 : pySplitNl (pyJoinNl (opl :: B ++ [endl])) = opl :: B ++ [endl] :=
      pySplitNl_joinNl _ (by simp) hnl
    rw [find_section_program]
    exact congrArg Except.ok (findSectionG_spec (progOpen pname) _ [] [] B [] opl endl
      (by simpa using hsp2) (by simp) (by simp) hop (progOpen_not_end hop)
      hBo hBe hend (end_not_progOpen pname hend))

/-- Claim C8 witness: extraction and idempotence on a concrete block. -/
theorem claim_C8_witness :
    find_section ".PROGRAM T()\nx\n.END" "T" "program" =
      Except.ok (pyJoinNl [".PROGRAM T()", "x", ".END"]) ∧
    find_section (pyJoinNl [".PROGRAM T()", "x", ".END"]) "T" "program" =
      Except.ok (pyJoinNl [".PROGRAM T()", "x", ".END"]) :=
  claim_C8 ".PROGRAM T()\nx\n.END" "T" [] ["x"] [] ".PROGRAM T()" ".END"
    (by decide) (by decide) (by decide) (by decide) (by decide) (by decide)

/-- Claim C1 counterexample: a program text whose Trans section is present
(`find_section` returns a non-empty trans block) but whose trans push
raises a channel error leaves `trans_points_exist = false` — the flag is
set only *after* a successful push, so it does not record that a TRANS
section was found. -/
theorem claim_C1_counterexample :
    (find_section txtC1 "T" "trans" = Except.ok ".TRANS\npt\n.END" ∧
      (".TRANS\npt\n.END" : String) ≠ "") ∧
    (upload_program chC1 "T" txtC1 false).1.trans_points_exist = false ∧
    (upload_program chC1 "T" txtC1 false).1.trans_points_uploaded = false ∧
    (upload_program chC1 "T" txtC1 false).1.error_message =
      some "channel write failed" :=
  ⟨⟨by decide, by decide⟩, by decide, by decide, by decide⟩

/-- Claim C1 (amended): `transPointsExist` always equals
`transPointsUploaded` — both are set exactly when the push of the trans
bytes succeeds; when the Trans section is present but its push fails with
a channel error, both flags remain false (and the error is recorded).  In
particular, on a never-failing channel with a valid program section and a
present trans section, both flags are true. -/
theorem claim_C1 (ch : Channel) (pname ptext : String) (openp : Bool) :
    (upload_program ch pname ptext openp).1.trans_points_exist =
      (upload_program ch pname ptext openp).1.trans_points_uploaded ∧
    (∀ ps ts, find_section ptext pname "program" = Except.ok ps → ps ≠ "" →
      is_pg_valid ps = true →
      find_section ptext pname "trans" = Except.ok ts → ts ≠ "" →
      (∀ n, ch.failAt n = none) →
      (upload_program ch pname ptext openp).1.trans_points_exist = true ∧
      (upload_program ch pname ptext openp).1.trans_points_uploaded = true) := by
  constructor
  · exact upload_trans_eq ch pname ptext openp
  · intro ps ts hps hpsne hval hts htsne hnf
    simp only [upload_program, uploadAfterPC]
    have h1 : stGetStatuses ch {} [] =
        ⟨{}, [Cmd.getPCStatus, Cmd.getRcpStatus], false⟩ := by
      simpa using stGetStatuses_nofail ch {} [] hnf
    obtain ⟨n2, h2⟩ := pcConflict_nofail_any ch pname {} hnf ch.pcStatuses
      [Cmd.getPCStatus, Cmd.getRcpStatus]
    have hs2 : andThen (stGetStatuses ch {} [])
        (fun r tr => pcConflict ch pname r ch.pcStatuses tr) =
        ⟨{}, [Cmd.getPCStatus, Cmd.getRcpStatus] ++ n2, false⟩ := by
      rw [h1, andThen_not_done _ rfl]
      exact h2
    obtain ⟨n3, h3⟩ := rcpConflict_nofail_any ch pname ch.rcpStatus {}
      ([Cmd.getPCStatus, Cmd.getRcpStatus] ++ n2) hnf
    have hs3 : andThen (⟨{}, [Cmd.getPCStatus, Cmd.getRcpStatus] ++ n2, false⟩ : StageOut)
        (fun r tr => rcpConflict ch pname ch.rcpStatus r tr) =
        ⟨{}, ([Cmd.getPCStatus, Cmd.getRcpStatus] ++ n2) ++ n3, false⟩ := by
      rw [andThen_not_done _ rfl]
      exact h3
    have hs4 : andThen (⟨{}, ([Cmd.getPCStatus, Cmd.getRcpStatus] ++ n2) ++ n3, false⟩ : StageOut)
        (fun r tr => stMain ch pname ptext r tr) =
        ⟨{ program_uploaded := true },
          (([Cmd.getPCStatus, Cmd.getRcpStatus] ++ n2) ++ n3) ++ [Cmd.uploadBytes ps],
          false⟩ := by
      rw [andThen_not_done _ rfl]
      exact stMain_ok ch pname ptext {} _ ps hps hpsne hval (hnf _)
    have hs5 : andThen (⟨{ program_uploaded := true },
        (([Cmd.getPCStatus, Cmd.getRcpStatus] ++ n2) ++ n3) ++ [Cmd.uploadBytes ps],
        false⟩ : StageOut) (fun r tr => stTrans ch pname ptext r tr) =
        ⟨afterTransResult,
          ((([Cmd.getPCStatus, Cmd.getRcpStatus] ++ n2) ++ n3) ++ [Cmd.uploadBytes ps])
            ++ [Cmd.uploadBytes ts], false⟩ := by
      rw [andThen_not_done _ rfl]
      exact stTrans_ok ch pname ptext _ _ ts hts htsne (hnf _)
    obtain ⟨r6, tr6, h6, h6u, h6e⟩ := stJoints_nofail_keep ch pname ptext
      afterTransResult
      (((([Cmd.getPCStatus, Cmd.getRcpStatus] ++ n2) ++ n3) ++ [Cmd.uploadBytes ps])
        ++ [Cmd.uploadBytes ts]) hnf
    have hs6 : andThen (⟨afterTransResult,
        ((([Cmd.getPCStatus, Cmd.getRcpStatus] ++ n2) ++ n3) ++ [Cmd.uploadBytes ps])
          ++ [Cmd.uploadBytes ts], false⟩ : StageOut)
        (fun r tr => stJoints ch pname ptext r tr) = ⟨r6, tr6, false⟩ := by
      rw [andThen_not_done _ rfl]
      exact h6
    obtain ⟨r7, tr7, h7, h7u, h7e⟩ := stPrime_nofail_keep ch pname openp r6 tr6 hnf
    have hs7 : andThen (⟨r6, tr6, false⟩ : StageOut)
        (fun r tr => stPrime ch pname openp r tr) = ⟨r7, tr7, false⟩ := by
      rw [andThen_not_done _ rfl]
      exact h7
    rw [hs2, hs3, hs4, hs5, hs6, hs7]
    exact ⟨h7e.trans h6e, h7u.trans h6u⟩

/-- Claim C1 witness: the amended claim applied at a concrete channel and
program text with both sections present and a never-failing channel. -/
theorem claim_C1_witness :
    (upload_program chC1w "T" txtC1 false).1.trans_points_exist = true ∧
    (upload_program chC1w "T" txtC1 false).1.trans_points_uploaded = true :=
  (claim_C1 chC1w "T" txtC1 false).2 ".PROGRAM T()\nx\n.END" ".TRANS\npt\n.END"
    (by decide) (by decide) (by decide) (by decide) (by decide) (fun _ => rfl)

/-- Claim C3: when extracting the Program section yields the empty string,
the call returns with `program_uploaded = false`, all four trans/joints
flags false, no `uploadBytes` command ever issued to the channel, and (as
long as no channel command failed first) the not-found error message. -/
theorem claim_C3 (ch : Channel) (pname ptext : String) (openp : Bool)
    (hpg : find_section ptext pname "program" = Except.ok "") :
    (upload_program ch pname ptext openp).1.program_uploaded = false ∧
    (upload_program ch pname ptext openp).1.trans_points_uploaded = false ∧
    (upload_program ch pname ptext openp).1.trans_points_exist = false ∧
    (upload_program ch pname ptext openp).1.joints_points_uploaded = false ∧
    (upload_program ch pname ptext openp).1.joints_points_exist = false ∧
    (∀ s, Cmd.uploadBytes s ∉ (upload_program ch pname ptext openp).2) ∧
    ((∀ n, ch.failAt n = none) →
      (upload_program ch pname ptext openp).1.error_message =
        some (notFoundMsg pname)) := by
  simp only [upload_program, uploadAfterPC]
  set s2 := andThen (stGetStatuses ch {} [])
    (fun r tr => pcConflict ch pname r ch.pcStatuses tr) with hs2
  set s3 := andThen s2 (fun r tr => rcpConflict ch pname ch.rcpStatus r tr) with hs3
  have hsh2 : resultShape s2.result {} := by
    rw [hs2]
    exact preMain_shape ch pname
  have hsh3 : resultShape s3.result {} := by
    rw [hs3]
    exact andThen_shape hsh2 (fun r' tr => rcpConflict_shape ch pname ch.rcpStatus r' tr)
  have hkey : andThen (andThen (andThen (andThen s3
        (fun r tr => stMain ch pname ptext r tr))
        (fun r tr => stTrans ch pname ptext r tr))
        (fun r tr => stJoints ch pname ptext r tr))
        (fun r tr => stPrime ch pname openp r tr) =
      (if s3.done = true then s3
        else ⟨{ s3.result with error_message := some (notFoundMsg pname) },
          s3.trace, true⟩) := by
    by_cases hd : s3.done = true
    · rw [andThen_done _ hd, andThen_done _ hd, andThen_done _ hd,
        andThen_done _ hd, if_pos hd]
    · have h4 : andThen s3 (fun r tr => stMain ch pname ptext r tr) =
          ⟨{ s3.result with error_message := some (notFoundMsg pname) },
            s3.trace, true⟩ := by
        rw [andThen_not_done _ (by simpa using hd)]
        exact stMain_notfound ch pname ptext s3.result s3.trace hpg
      rw [h4, andThen_done _ rfl, andThen_done _ rfl, andThen_done _ rfl,
        if_neg hd]
  rw [hkey]
  have hfl := resultShape_flags hsh3
  have hf1 : s3.result.program_uploaded = false := hfl.1
  have hf2 : s3.result.trans_points_uploaded = false := hfl.2.1
  have hf3 : s3.result.trans_points_exist = false := hfl.2.2.1
  have hf4 : s3.result.joints_points_uploaded = false := hfl.2.2.2.1
  have hf5 : s3.result.joints_points_exist = false := hfl.2.2.2.2.1
  have htrc : ∀ s, Cmd.uploadBytes s ∉ s3.trace := by
    have hex : ∃ new, s3.trace = [] ++ new ∧ ∀ c ∈ new, notUploadCmd c := by
      rw [hs3, hs2]
      apply andThen_trace
      · apply andThen_trace
        · obtain ⟨n0, h0, hp0⟩ := stGetStatuses_trace ch {} []
          refine ⟨n0, by simpa using h0, fun c hc => ?_⟩
          rcases hp0 c hc with h | h <;> subst h <;> intro s' <;> simp
        · intro r tr
          obtain ⟨n1, h1, hp1⟩ := pcConflict_trace ch pname r ch.pcStatuses tr
          refine ⟨n1, h1, fun c hc => ?_⟩
          rcases hp1 c hc with ⟨m, h⟩ | ⟨m, h⟩ <;> subst h <;> intro s' <;> simp
      · intro r tr
        obtain ⟨n1, h1, hp1⟩ := rcpConflict_trace ch pname ch.rcpStatus r tr
        refine ⟨n1, h1, fun c hc => ?_⟩
        rcases hp1 c hc with h | h <;> subst h <;> intro s' <;> simp
    obtain ⟨new, hnew, hP⟩ := hex
    intro s hsmem
    rw [hnew] at hsmem
    simp only [List.nil_append] at hsmem
    exact absurd rfl (hP _ hsmem s)
  refine ⟨?_, ?_, ?_, ?_, ?_, ?_, ?_⟩
  · by_cases hd : s3.done = true <;> simp [hd, hf1]
  · by_cases hd : s3.done = true <;> simp [hd, hf2]
  · by_cases hd : s3.done = true <;> simp [hd, hf3]
  · by_cases hd : s3.done = true <;> simp [hd, hf4]
  · by_cases hd : s3.done = true <;> simp [hd, hf5]
  · by_cases hd : s3.done = true <;> simp [hd] <;> exact htrc
  · intro hnf
    have hd3 : s3.done = false := by
      have h1 : stGetStatuses ch {} [] =
          ⟨{}, [Cmd.getPCStatus, Cmd.getRcpStatus], false⟩ := by
        simpa using stGetStatuses_nofail ch {} [] hnf
      obtain ⟨n2, h2⟩ := pcConflict_nofail_any ch pname {} hnf ch.pcStatuses
        [Cmd.getPCStatus, Cmd.getRcpStatus]
      have hval2 : s2 = ⟨{}, [Cmd.getPCStatus, Cmd.getRcpStatus] ++ n2, false⟩ := by
        rw [hs2, h1, andThen_not_done _ rfl]
        exact h2
      obtain ⟨n3, h3⟩ := rcpConflict_nofail_any ch pname ch.rcpStatus {}
        ([Cmd.getPCStatus, Cmd.getRcpStatus] ++ n2) hnf
      have hval3 : s3 = ⟨{}, ([Cmd.getPCStatus, Cmd.getRcpStatus] ++ n2) ++ n3, false⟩ := by
        rw [hs3, hval2, andThen_not_done _ rfl]
        exact h3
      rw [hval3]
    rw [if_neg (by simp [hd3])]

/-- Claim C3 witness: the claim applied at a concrete channel and text
with no matching program section. -/
theorem claim_C3_witness :
    (upload_program chC3w "X" "no sections here" true).1.program_uploaded = false ∧
    (upload_program chC3w "X" "no sections here" true).1.error_message =
      some (notFoundMsg "X") :=
  ⟨(claim_C3 chC3w "X" "no sections here" true (by decide)).1,
    (claim_C3 chC3w "X" "no sections here" true (by decide)).2.2.2.2.2.2
      (fun _ => rfl)⟩

/-- Claim C9: in every reachable outcome of an upload call, including
channel failures at any step, `trans_points_uploaded` implies
`trans_points_exist` and `joints_points_uploaded` implies
`joints_points_exist`. -/
theorem claim_C9 (ch : Channel) (pname ptext : String) (openp : Bool) :
    ((upload_program ch pname ptext openp).1.trans_points_uploaded = true →
      (upload_program ch pname ptext openp).1.trans_points_exist = true) ∧
    ((upload_program ch pname ptext openp).1.joints_points_uploaded = true →
      (upload_program ch pname ptext openp).1.joints_points_exist = true) := by
  constructor
  · intro h
    rw [upload_trans_eq, h]
  · intro h
    rw [upload_joints_eq, h]

/-- Claim C9 witness: the implications applied at a concrete run in which
both point sections are uploaded. -/
theorem claim_C9_witness :
    (upload_program chC9w "T" txtC9 false).1.trans_points_exist = true ∧
    (upload_program chC9w "T" txtC9 false).1.joints_points_exist = true :=
  ⟨(claim_C9 chC9w "T" txtC9 false).1 (by decide),
    (claim_C9 chC9w "T" txtC9 false).2 (by decide)⟩

/-- Claim C4: during an upload on a never-failing channel, for the first
status entry that exists and case-insensitively matches the program name,
the orchestrator issues an abort with mask `1 <<< (threadNum - 1)` exactly
when the entry is running, then a kill with the same mask; no further
abort or kill of auxiliary threads is issued afterwards (the scan stops at
the first match), and every byte upload occurs after these commands. -/
theorem claim_C4 (ch : Channel) (pname ptext : String) (openp : Bool)
    (pre : List PCStatus) (e : PCStatus) (post : List PCStatus)
    (hdec : ch.pcStatuses = pre ++ e :: post)
    (hpre : ∀ x ∈ pre, (x.is_exist && (pyLower x.name == pyLower pname)) = false)
    (he : (e.is_exist && (pyLower e.name == pyLower pname)) = true)
    (hnf : ∀ n, ch.failAt n = none) :
    ∃ rest, (upload_program ch pname ptext openp).2 =
        Cmd.getPCStatus :: Cmd.getRcpStatus ::
          ((if e.is_running then
              [Cmd.pcAbort (1 <<< (e.thread_num - 1)),
                Cmd.pcKill (1 <<< (e.thread_num - 1))]
            else [Cmd.pcKill (1 <<< (e.thread_num - 1))]) ++ rest) ∧
      (∀ c ∈ rest, notPcCmd c) ∧
      (∀ s, Cmd.uploadBytes s ∈ (upload_program ch pname ptext openp).2 →
        Cmd.uploadBytes s ∈ rest) := by
  simp only [upload_program]
  have h1 : stGetStatuses ch {} [] =
      ⟨{}, [Cmd.getPCStatus, Cmd.getRcpStatus], false⟩ := by
    simpa using stGetStatuses_nofail ch {} [] hnf
  have hs2 : andThen (stGetStatuses ch {} [])
      (fun r tr => pcConflict ch pname r ch.pcStatuses tr) =
      ⟨{}, [Cmd.getPCStatus, Cmd.getRcpStatus] ++
        (if e.is_running then
          [Cmd.pcAbort (1 <<< (e.thread_num - 1)),
            Cmd.pcKill (1 <<< (e.thread_num - 1))]
          else [Cmd.pcKill (1 <<< (e.thread_num - 1))]), false⟩ := by
    rw [h1, andThen_not_done _ rfl]
    show pcConflict ch pname {} ch.pcStatuses [Cmd.getPCStatus, Cmd.getRcpStatus] = _
    rw [hdec, pcConflict_skip ch pname {} pre hpre (e :: post)]
    exact pcConflict_hit_nofail ch pname {} e post _ he hnf
  obtain ⟨rest, hrest, hP⟩ := uploadAfterPC_trace ch pname ptext openp
    ⟨{}, [Cmd.getPCStatus, Cmd.getRcpStatus] ++
      (if e.is_running then
        [Cmd.pcAbort (1 <<< (e.thread_num - 1)),
          Cmd.pcKill (1 <<< (e.thread_num - 1))]
        else [Cmd.pcKill (1 <<< (e.thread_num - 1))]), false⟩
  refine ⟨rest, ?_, hP, ?_⟩
  · rw [hs2, hrest]
    simp
  · intro s hsmem
    rw [hs2, hrest] at hsmem
    by_cases hr : e.is_running = true <;> simp [hr] at hsmem <;> exact hsmem

/-- Claim C4 witness: the claim applied at a concrete channel whose thread
slot 2 runs a case-variant of the program name. -/
theorem claim_C4_witness :
    ∃ rest, (upload_program chC4w "TEST1" txtC4 false).2 =
        Cmd.getPCStatus :: Cmd.getRcpStatus ::
          ((if (⟨2, "test1", true, true⟩ : PCStatus).is_running then
              [Cmd.pcAbort (1 <<< ((⟨2, "test1", true, true⟩ : PCStatus).thread_num - 1)),
                Cmd.pcKill (1 <<< ((⟨2, "test1", true, true⟩ : PCStatus).thread_num - 1))]
            else [Cmd.pcKill (1 <<< ((⟨2, "test1", true, true⟩ : PCStatus).thread_num - 1))])
            ++ rest) ∧
      (∀ c ∈ rest, notPcCmd c) ∧
      (∀ s, Cmd.uploadBytes s ∈ (upload_program chC4w "TEST1" txtC4 false).2 →
        Cmd.uploadBytes s ∈ rest) :=
  claim_C4 chC4w "TEST1" txtC4 false [] ⟨2, "test1", true, true⟩ []
    (by decide) (by decide) (by decide) (fun _ => rfl)

/-- Claim C10: when a matching auxiliary thread is running and the matching
continuous-path program is running, the conflict commands (abort, kill,
hold, kill-RCP) are issued before the Program section is even consulted;
when the call then fails with a not-found or invalid-program error, those
commands are all that was issued — the stopped program has been killed and
nothing is rolled back. -/
theorem claim_C10 (ch : Channel) (pname ptext : String) (openp : Bool)
    (pre : List PCStatus) (e : PCStatus) (post : List PCStatus)
    (hdec : ch.pcStatuses = pre ++ e :: post)
    (hpre : ∀ x ∈ pre, (x.is_exist && (pyLower x.name == pyLower pname)) = false)
    (he : (e.is_exist && (pyLower e.name == pyLower pname)) = true)
    (her : e.is_running = true)
    (hrex : ch.rcpStatus.is_exist = true)
    (hrnm : (pyLower ch.rcpStatus.name == pyLower pname) = true)
    (hrr : ch.rcpStatus.is_running = true)
    (hnf : ∀ n, ch.failAt n = none)
    (hpg : find_section ptext pname "program" = Except.ok "" ∨
      ∃ ps, find_section ptext pname "program" = Except.ok ps ∧ ps ≠ "" ∧
        is_pg_valid ps = false) :
    (upload_program ch pname ptext openp).2 =
      [Cmd.getPCStatus, Cmd.getRcpStatus,
        Cmd.pcAbort (1 <<< (e.thread_num - 1)), Cmd.pcKill (1 <<< (e.thread_num - 1)),
        Cmd.rcpHold, Cmd.killRcp] ∧
    (upload_program ch pname ptext openp).1.program_uploaded = false ∧
    ((upload_program ch pname ptext openp).1.error_message = some (notFoundMsg pname) ∨
      (upload_program ch pname ptext openp).1.error_message = some (notValidMsg pname)) := by
  simp only [upload_program, uploadAfterPC]
  have h1 : stGetStatuses ch {} [] =
      ⟨{}, [Cmd.getPCStatus, Cmd.getRcpStatus], false⟩ := by
    simpa using stGetStatuses_nofail ch {} [] hnf
  have hs2 : andThen (stGetStatuses ch {} [])
      (fun r tr => pcConflict ch pname r ch.pcStatuses tr) =
      ⟨{}, [Cmd.getPCStatus, Cmd.getRcpStatus,
        Cmd.pcAbort (1 <<< (e.thread_num - 1)),
        Cmd.pcKill (1 <<< (e.thread_num - 1))], false⟩ := by
    rw [h1, andThen_not_done _ rfl]
    show pcConflict ch pname {} ch.pcStatuses [Cmd.getPCStatus, Cmd.getRcpStatus] = _
    rw [hdec, pcConflict_skip ch pname {} pre hpre (e :: post),
      pcConflict_hit_nofail ch pname {} e post _ he hnf, her]
    simp
  have hm : (ch.rcpStatus.is_exist && (pyLower ch.rcpStatus.name == pyLower pname)) = true := by
    rw [hrex, hrnm]
    rfl
  have hs3 : andThen (⟨{}, [Cmd.getPCStatus, Cmd.getRcpStatus,
      Cmd.pcAbort (1 <<< (e.thread_num - 1)),
      Cmd.pcKill (1 <<< (e.thread_num - 1))], false⟩ : StageOut)
      (fun r tr => rcpConflict ch pname ch.rcpStatus r tr) =
      ⟨{}, [Cmd.getPCStatus, Cmd.getRcpStatus,
        Cmd.pcAbort (1 <<< (e.thread_num - 1)),
        Cmd.pcKill (1 <<< (e.thread_num - 1)),
        Cmd.rcpHold, Cmd.killRcp], false⟩ := by
    rw [andThen_not_done _ rfl,
      rcpConflict_hit_nofail ch pname ch.rcpStatus {} _ hm hnf, hrr]
    simp
  have hs4 : andThen (⟨{}, [Cmd.getPCStatus, Cmd.getRcpStatus,
      Cmd.pcAbort (1 <<< (e.thread_num - 1)),
      Cmd.pcKill (1 <<< (e.thread_num - 1)),
      Cmd.rcpHold, Cmd.killRcp], false⟩ : StageOut)
      (fun r tr => stMain ch pname ptext r tr) =
      ⟨{ error_message := some (if (find_section ptext pname "program" = Except.ok "") then notFoundMsg pname else notValidMsg pname) },
        [Cmd.getPCStatus, Cmd.getRcpStatus,
          Cmd.pcAbort (1 <<< (e.thread_num - 1)),
          Cmd.pcKill (1 <<< (e.thread_num - 1)),
          Cmd.rcpHold, Cmd.killRcp], true⟩ := by
    rw [andThen_not_done _ rfl]
    rcases hpg with h | ⟨ps, hps, hne, hinv⟩
    · rw [stMain_notfound ch pname ptext {} _ h, if_pos h]
    · rw [stMain_invalid ch pname ptext {} _ ps hps hne hinv,
        if_neg (by rw [hps]; simp [hne])]
  rw [hs2, hs3, hs4, andThen_done _ rfl, andThen_done _ rfl, andThen_done _ rfl]
  refine ⟨rfl, rfl, ?_⟩
  by_cases h : find_section ptext pname "program" = Except.ok ""
  · left
    simp [h]
  · right
    simp [h]

/-- Claim C10 witness: the claim applied at a concrete channel with running
thread and continuous-path conflicts and an empty program text. -/
theorem claim_C10_witness :
    (upload_program chC10w "TEST1" "" true).2 =
      [Cmd.getPCStatus, Cmd.getRcpStatus,
        Cmd.pcAbort (1 <<< ((2 : Nat) - 1)), Cmd.pcKill (1 <<< ((2 : Nat) - 1)),
        Cmd.rcpHold, Cmd.killRcp] ∧
    (upload_program chC10w "TEST1" "" true).1.program_uploaded = false ∧
    ((upload_program chC10w "TEST1" "" true).1.error_message = some (notFoundMsg "TEST1") ∨
      (upload_program chC10w "TEST1" "" true).1.error_message = some (notValidMsg "TEST1")) :=
  claim_C10 chC10w "TEST1" "" true [] ⟨2, "test1", true, true⟩ []
    (by decide) (by decide) (by decide) (by decide) (by decide) (by decide)
    (by decide) (fun _ => rfl) (Or.inl (by decide))

/-- Claim C6: when `deletePrograms(names, force := true)` finds the
continuous-path status reporting an existing program whose name is in
`names`, it issues a hold exactly when that program is running, then a
kill of the continuous-path program, and only then deletes the names one
at a time in list order; it stops at the first channel failure, attempting
no deletion for the remaining names (`m` names deleted, with the `m`-th
raising after `m - 1` successes, or all names deleted when nothing
fails). -/
theorem claim_C6 (ch : Channel) (names : List String)
    (hex : ch.rcpStatus.is_exist = true)
    (hmem : names.contains ch.rcpStatus.name = true)
    (h0 : ch.failAt 0 = none)
    (h1 : ch.rcpStatus.is_running = true → ch.failAt 1 = none)
    (h2 : ch.failAt (if ch.rcpStatus.is_running then 2 else 1) = none) :
    ∃ m, m ≤ names.length ∧
      (delete_programs ch names true).1 =
        Cmd.getRcpStatus ::
          ((if ch.rcpStatus.is_running then [Cmd.rcpHold] else []) ++
            Cmd.killRcp :: (names.take m).map Cmd.pgDelete) ∧
      ((delete_programs ch names true).2 = none → m = names.length) ∧
      (∀ e, (delete_programs ch names true).2 = some e →
        ∃ k, m = k + 1 ∧
          ch.failAt ((if ch.rcpStatus.is_running then 3 else 2) + k) = some e ∧
          ∀ j < k, ch.failAt ((if ch.rcpStatus.is_running then 3 else 2) + j) = none) := by
  have hne : ¬ names.length = 0 := by
    intro hlen
    rw [List.length_eq_zero] at hlen
    subst hlen
    simp at hmem
  have hcond : (ch.rcpStatus.is_exist && names.contains ch.rcpStatus.name) = true := by
    rw [hex, hmem]
    rfl
  by_cases hr : ch.rcpStatus.is_running = true
  · have hh1 := h1 hr
    have hh2 : ch.failAt 2 = none := by
      have := h2
      rw [if_pos hr] at this
      exact this
    have hred : delete_programs ch names true =
        deleteLoop ch names [Cmd.getRcpStatus, Cmd.rcpHold, Cmd.killRcp] := by
      rw [delete_programs, if_neg hne, if_pos rfl]
      simp [step, h0, hcond, hr, hh1, hh2]
      intro hc
      exact absurd hmem (by simp [hc hex])
    obtain ⟨m, hle, htr, hn, hs⟩ := deleteLoop_spec ch names
      [Cmd.getRcpStatus, Cmd.rcpHold, Cmd.killRcp]
    refine ⟨m, hle, ?_, ?_, ?_⟩
    · rw [hred, htr]
      simp [hr]
    · intro h
      rw [hred] at h
      exact hn h
    · intro e he
      rw [hred] at he
      obtain ⟨k, hk, hfk, hprev⟩ := hs e he
      exact ⟨k, hk, by simpa [hr] using hfk, fun j hj => by simpa [hr] using hprev j hj⟩
  · have hh2 : ch.failAt 1 = none := by
      have := h2
      rw [if_neg hr] at this
      exact this
    have hred : delete_programs ch names true =
        deleteLoop ch names [Cmd.getRcpStatus, Cmd.killRcp] := by
      rw [delete_programs, if_neg hne, if_pos rfl]
      simp [step, h0, hcond, hr, hh2]
      intro hc
      exact absurd hmem (by simp [hc hex])
    obtain ⟨m, hle, htr, hn, hs⟩ := deleteLoop_spec ch names
      [Cmd.getRcpStatus, Cmd.killRcp]
    refine ⟨m, hle, ?_, ?_, ?_⟩
    · rw [hred, htr]
      simp [hr]
    · intro h
      rw [hred] at h
      exact hn h
    · intro e he
      rw [hred] at he
      obtain ⟨k, hk, hfk, hprev⟩ := hs e he
      exact ⟨k, hk, by simpa [hr] using hfk, fun j hj => by simpa [hr] using hprev j hj⟩

/-- Claim C6 witness: the claim applied at a concrete channel whose
continuous-path slot runs `A`, deleting `["A", "B"]`. -/
theorem claim_C6_witness :
    ∃ m, m ≤ (["A", "B"] : List String).length ∧
      (delete_programs chC6w ["A", "B"] true).1 =
        Cmd.getRcpStatus ::
          ((if chC6w.rcpStatus.is_running then [Cmd.rcpHold] else []) ++
            Cmd.killRcp :: ((["A", "B"] : List String).take m).map Cmd.pgDelete) ∧
      ((delete_programs chC6w ["A", "B"] true).2 = none → m = (["A", "B"] : List String).length) ∧
      (∀ e, (delete_programs chC6w ["A", "B"] true).2 = some e →
        ∃ k, m = k + 1 ∧
          chC6w.failAt ((if chC6w.rcpStatus.is_running then 3 else 2) + k) = some e ∧
          ∀ j < k, chC6w.failAt ((if chC6w.rcpStatus.is_running then 3 else 2) + j) = none) :=
  claim_C6 chC6w ["A", "B"] (by decide) (by decide) rfl (fun _ => rfl) rfl
